import Mathlib

/-!
Shallow embedding of the SwingShift survey backend (src/backend/app.py and
src/backend/models.py): the data model, the project question-set bulk
synchronization, response recording, result aggregation and CSV export,
followed by theorems settling the specification claims about them.

Conventions: SQLAlchemy rows become structures, the database becomes lists
of rows plus autoincrement counters, `datetime.utcnow()` becomes an explicit
`now : Nat` argument, the opaque tokens produced by `uuid.uuid4()` become
explicit arguments, and HTTP error returns become `Except ApiError`.
-/

/-- One `{text, code}` pair of a per-project option override (an entry of
`custom_options_json` in app.py). -/
structure OptPair where
  text : String
  code : String
deriving DecidableEq

/-- Untrusted JSON values appearing in the `question_ids` list of a bulk
sync request body. -/
inductive JVal where
  | jnull : JVal
  | jint : Int → JVal
  | jstr : String → JVal
deriving DecidableEq

/-- Value of a nonempty decimal digit string. -/
def digitsVal (l : List Char) : Nat :=
  l.foldl (fun a c => a * 10 + (c.toNat - 48)) 0

/-- Whether every character is a decimal digit. -/
def allDigits (l : List Char) : Bool :=
  l.all (fun c => c.isDigit)

/-- Model of Python `int(s)` on a string: optional surrounding spaces, an
optional sign, then decimal digits; `none` when the string does not parse. -/
def pyIntOfString (s : String) : Option Int :=
  let l := ((s.data.dropWhile (fun c => c = ' ')).reverse.dropWhile
    (fun c => c = ' ')).reverse
  match l with
  | [] => none
  | '-' :: rest =>
    if rest ≠ [] ∧ allDigits rest then some (-(digitsVal rest : Int)) else none
  | '+' :: rest =>
    if rest ≠ [] ∧ allDigits rest then some ((digitsVal rest : Int)) else none
  | _ => if allDigits l then some ((digitsVal l : Int)) else none

/-- The sanitizing coercion the bulk sync applies to each entry of the
incoming id list (app.py: skip `None`, `''` and `'undefined'`, then try
`int(qid)` and silently skip failures). -/
def coerceId : JVal → Option Int
  | .jnull => none
  | .jint n => some n
  | .jstr s => if s = "" ∨ s = "undefined" then none else pyIntOfString s

/-- Adding one element to a set modelled as a duplicate-free list. -/
def insertSet (l : List Int) (n : Int) : List Int :=
  if n ∈ l then l else l ++ [n]

/-- One iteration of the sanitizing loop: add the coerced id to the set,
or skip the entry silently. -/
def sanStep (acc : List Int) (v : JVal) : List Int :=
  match coerceId v with
  | some n => insertSet acc n
  | none => acc

/-- `new_question_ids`: parse and deduplicate the incoming id list with set
semantics, silently dropping entries that do not coerce to an integer. -/
def sanitizeIds (raw : List JVal) : List Int :=
  raw.foldl sanStep []

/-- `access_code.upper()`: character-wise ASCII uppercasing. -/
def pyUpper (s : String) : String := String.mk (s.data.map Char.toUpper)

/-- Python `max(xs, default=0)`, and the `scalar() or 0` idiom on `MAX`
queries. -/
def maxDefault0 : List Int → Int
  | [] => 0
  | x :: xs => xs.foldl max x

/-- `projects` table (models.py `Project`), restricted to the fields the
claims touch. -/
structure Project where
  id : Nat
  project_name : String
  company_name : String
  access_code : String
  status : String
  opened_at : Option Nat
  closed_at : Option Nat
deriving DecidableEq

/-- `project_questions` table (models.py `ProjectQuestion`); the serialized
`custom_options_json` blob is modelled as the list it encodes. -/
structure ProjectQuestion where
  id : Nat
  project_id : Nat
  master_question_id : Int
  question_order : Int
  custom_text : Option String
  custom_options_json : Option (List OptPair)
  is_breakout : Bool
deriving DecidableEq

/-- `custom_questions` table (models.py `CustomQuestion`). -/
structure CustomQuestion where
  id : Nat
  project_id : Nat
  question_text : String
  question_order : Int
  question_type : String
  likert_low_label : Option String
  likert_high_label : Option String
  is_breakout : Bool
deriving DecidableEq

/-- `custom_response_options` table (models.py `CustomResponseOption`). -/
structure CustomResponseOption where
  id : Nat
  custom_question_id : Nat
  option_text : String
  option_code : Option String
  numeric_value : Option ℚ
  display_order : Int
deriving DecidableEq

/-- `survey_responses` table (models.py `SurveyResponse`). -/
structure SurveyResponse where
  id : Nat
  project_id : Nat
  response_code : String
  is_complete : Bool
  started_at : Nat
  completed_at : Option Nat
  last_activity : Nat
deriving DecidableEq

/-- `response_answers` table (models.py `ResponseAnswer`): both question
references are nullable columns. -/
structure ResponseAnswer where
  id : Nat
  response_id : Nat
  project_question_id : Option Nat
  custom_question_id : Option Nat
  answer_text : Option String
  answer_code : Option String
  answer_numeric : Option ℚ
  answer_multi : Option (List String)
deriving DecidableEq

/-- The datastore: one list per table plus autoincrement primary-key
counters. -/
structure DB where
  projects : List Project
  projectQuestions : List ProjectQuestion
  customQuestions : List CustomQuestion
  customResponseOptions : List CustomResponseOption
  responses : List SurveyResponse
  answers : List ResponseAnswer
  nextPQId : Nat
  nextCQId : Nat
  nextCROId : Nat
  nextRespId : Nat
  nextAnsId : Nat
deriving DecidableEq

/-- Error responses: `404 {"error": ...}` and `400 {"error": ...}`. -/
inductive ApiError where
  | notFound : String → ApiError
  | badRequest : String → ApiError
deriving DecidableEq

instance {e a : Type} [DecidableEq e] [DecidableEq a] : DecidableEq (Except e a)
  | .error x, .error y =>
    if h : x = y then .isTrue (by rw [h])
    else .isFalse (by intro he; cases he; exact h rfl)
  | .error _, .ok _ => .isFalse (by intro h; cases h)
  | .ok _, .error _ => .isFalse (by intro h; cases h)
  | .ok x, .ok y =>
    if h : x = y then .isTrue (by rw [h])
    else .isFalse (by intro he; cases he; exact h rfl)

/-- `ResponseAnswer.query.filter_by(project_question_id=pq.id).first() is
not None`: whether any answer references the ProjectQuestion row id. -/
def hasAnswerFor (db : DB) (pqId : Nat) : Bool :=
  db.answers.any (fun a => a.project_question_id == some pqId)

/-- `existing_by_mq[mq]`: the dict comprehension
`{pq.master_question_id: pq for pq in existing_pqs}` keeps, for each key,
the last row carrying it. -/
def lastWithMq (pqs : List ProjectQuestion) (mq : Int) : Option ProjectQuestion :=
  (pqs.filter (fun pq => pq.master_question_id == mq)).getLast?

/-- `json.dumps(custom_opts) if custom_opts else None`. -/
def optsOrNone (l : List OptPair) : Option (List OptPair) :=
  if l = [] then none else some l

/-- The add loop of the bulk sync: `max_order += 1` then create a
ProjectQuestion with `question_order=max_order`, for each id to add. -/
def mkNewRows (startId : Nat) (startOrder : Int) (projectId : Nat)
    (opts : Int → List OptPair) : List Int → List ProjectQuestion
  | [] => []
  | mq :: rest =>
    { id := startId, project_id := projectId, master_question_id := mq,
      question_order := startOrder + 1, custom_text := none,
      custom_options_json := optsOrNone (opts mq), is_breakout := false }
      :: mkNewRows (startId + 1) (startOrder + 1) projectId opts rest

/-- The JSON body returned by the bulk sync. -/
structure SyncResult where
  added : List Int
  updated : List Int
  removed : List Int
  total : Nat
deriving DecidableEq

/-- `existing_pqs`: the project's ProjectQuestion rows. -/
def existingPqsOf (db : DB) (projectId : Nat) : List ProjectQuestion :=
  db.projectQuestions.filter (fun pq => pq.project_id == projectId)

/-- `existing_ids = set(existing_by_mq.keys())`. -/
def existingIdsOf (db : DB) (projectId : Nat) : List Int :=
  ((existingPqsOf db projectId).map (fun pq => pq.master_question_id)).foldl
    insertSet []

/-- `to_add = new_question_ids - existing_ids`. -/
def toAddOf (db : DB) (projectId : Nat) (rawIds : List JVal) : List Int :=
  (sanitizeIds rawIds).filter (fun i => decide (i ∉ existingIdsOf db projectId))

/-- `to_remove = existing_ids - new_question_ids`. -/
def toRemoveOf (db : DB) (projectId : Nat) (rawIds : List JVal) : List Int :=
  (existingIdsOf db projectId).filter (fun i => decide (i ∉ sanitizeIds rawIds))

/-- `to_update = new_question_ids & existing_ids`. -/
def toUpdateOf (db : DB) (projectId : Nat) (rawIds : List JVal) : List Int :=
  (sanitizeIds rawIds).filter (fun i => decide (i ∈ existingIdsOf db projectId))

/-- The primary keys deleted by the removal loop: for each id to remove,
the dict row is deleted only when no ResponseAnswer references it. -/
def removedPkOf (db : DB) (projectId : Nat) (rawIds : List JVal) : List Nat :=
  (toRemoveOf db projectId rawIds).filterMap (fun mq =>
    match lastWithMq (existingPqsOf db projectId) mq with
    | some pq => if hasAnswerFor db pq.id then none else some pq.id
    | none => none)

/-- The primary keys the update loop touches (their stored override blob
is replaced). -/
def updatedPkOf (db : DB) (projectId : Nat) (rawIds : List JVal) : List Nat :=
  (toUpdateOf db projectId rawIds).filterMap (fun mq =>
    (lastWithMq (existingPqsOf db projectId) mq).map (fun pq => pq.id))

/-- `max_order = max([pq.question_order for pq in existing_pqs], default=0)`. -/
def maxOrderOf (db : DB) (projectId : Nat) : Int :=
  maxDefault0 ((existingPqsOf db projectId).map (fun pq => pq.question_order))

/-- Shared core of `add_bulk_questions` (app.py:1053) and
`update_project_questions_by_code` (app.py:332): reconcile the persisted
ProjectQuestion rows of one project with the sanitized desired id set.
`customOptions mq` models `custom_options.get(str(mq), {}).get('customOptions', [])`. -/
def bulkSync (db : DB) (projectId : Nat) (rawIds : List JVal)
    (customOptions : Int → List OptPair) : DB × SyncResult :=
  let rows1 := db.projectQuestions.filter (fun pq =>
    decide (pq.id ∉ removedPkOf db projectId rawIds))
  let rows2 := rows1.map (fun pq =>
    if pq.id ∈ updatedPkOf db projectId rawIds then
      { pq with custom_options_json := optsOrNone (customOptions pq.master_question_id) }
    else pq)
  let newRows := mkNewRows db.nextPQId (maxOrderOf db projectId) projectId
    customOptions (toAddOf db projectId rawIds)
  ({ db with
    projectQuestions := rows2 ++ newRows,
    nextPQId := db.nextPQId + (toAddOf db projectId rawIds).length },
   { added := toAddOf db projectId rawIds,
     updated := toUpdateOf db projectId rawIds,
     removed := toRemoveOf db projectId rawIds,
     total := (sanitizeIds rawIds).length })

/-- `POST /api/projects/{id}/questions/bulk` (admin). -/
def add_bulk_questions (db : DB) (projectId : Nat) (rawIds : List JVal)
    (customOptions : Int → List OptPair) : Except ApiError (DB × SyncResult) :=
  match db.projects.find? (fun p => p.id == projectId) with
  | none => .error (.notFound "Project not found")
  | some p => .ok (bulkSync db p.id rawIds customOptions)

/-- `POST /api/project/{access_code}/questions/bulk` (public by code). -/
def update_project_questions_by_code (db : DB) (accessCode : String)
    (rawIds : List JVal) (customOptions : Int → List OptPair) :
    Except ApiError (DB × SyncResult) :=
  match db.projects.find? (fun p => p.access_code == pyUpper accessCode) with
  | none => .error (.notFound "Project not found")
  | some p => .ok (bulkSync db p.id rawIds customOptions)

/-- `DELETE /api/project/{access_code}/questions/{id}` (app.py:438). -/
def delete_project_question_by_code (db : DB) (accessCode : String)
    (questionId : Nat) : Except ApiError DB :=
  match db.projects.find? (fun p => p.access_code == pyUpper accessCode) with
  | none => .error (.notFound "Project not found")
  | some project =>
    match db.projectQuestions.find? (fun pq =>
        pq.id == questionId && pq.project_id == project.id) with
    | none => .error (.notFound "Question not found")
    | some pq =>
      if hasAnswerFor db pq.id then
        .error (.badRequest "Cannot delete question with responses")
      else
        .ok { db with projectQuestions :=
          db.projectQuestions.filter (fun r => !(r.id == pq.id)) }

/-- The response-option rows created by `add_custom_question_by_code`
(app.py:490): `numeric_value=i+1, display_order=i+1`. -/
def mkCustomOptionRows (cqId : Nat) (startId : Nat) (i : Nat) :
    List OptPair → List CustomResponseOption
  | [] => []
  | o :: rest =>
    { id := startId, custom_question_id := cqId, option_text := o.text,
      option_code := some o.code, numeric_value := some ((i : ℚ) + 1),
      display_order := (i : Int) + 1 }
      :: mkCustomOptionRows cqId (startId + 1) (i + 1) rest

/-- `POST /api/project/{access_code}/custom-questions` (app.py:462). The
next order is `max(CustomQuestion.question_order) or 0` plus one, over this
project's custom questions only. -/
def add_custom_question_by_code (db : DB) (accessCode : String)
    (question_text question_type : String)
    (likert_low likert_high : Option String)
    (options : List OptPair) : Except ApiError DB :=
  match db.projects.find? (fun p => p.access_code == pyUpper accessCode) with
  | none => .error (.notFound "Project not found")
  | some project =>
    let maxOrder := maxDefault0 ((db.customQuestions.filter
      (fun c => c.project_id == project.id)).map (fun c => c.question_order))
    let cq : CustomQuestion :=
      { id := db.nextCQId, project_id := project.id,
        question_text := question_text, question_order := maxOrder + 1,
        question_type := question_type,
        likert_low_label := match likert_low with
          | some v => some v
          | none => if question_type = "likert_5" then some "Strongly Disagree" else none,
        likert_high_label := match likert_high with
          | some v => some v
          | none => if question_type = "likert_5" then some "Strongly Agree" else none,
        is_breakout := false }
    .ok { db with
      customQuestions := db.customQuestions ++ [cq],
      customResponseOptions := db.customResponseOptions ++
        mkCustomOptionRows cq.id db.nextCROId 0 options,
      nextCQId := db.nextCQId + 1,
      nextCROId := db.nextCROId + options.length }

/-- One entry of the `response_options` payload of the admin individual
add (app.py:1038). -/
structure CROPayload where
  option_text : String
  option_code : Option String
  numeric_value : Option ℚ
deriving DecidableEq

/-- Request body of `POST /api/projects/{id}/questions` (app.py:990). -/
structure AddQuestionPayload where
  master_question_id : Option Int
  question_order : Option Int
  custom_text : Option String
  is_breakout : Option Bool
  question_text : String
  question_type : String
  likert_low_label : Option String
  likert_high_label : Option String
  response_options : List CROPayload
deriving DecidableEq

/-- The response-option rows created by the custom branch of
`add_project_question`: `display_order=i+1`, numeric value from the
payload. -/
def mkAdminOptionRows (cqId : Nat) (startId : Nat) (i : Nat) :
    List CROPayload → List CustomResponseOption
  | [] => []
  | o :: rest =>
    { id := startId, custom_question_id := cqId, option_text := o.option_text,
      option_code := o.option_code, numeric_value := o.numeric_value,
      display_order := (i : Int) + 1 }
      :: mkAdminOptionRows cqId (startId + 1) (i + 1) rest

/-- `POST /api/projects/{id}/questions` (admin individual add, app.py:990):
the only add operation whose next order is
`max(max PQ order, max CQ order) + 1`. -/
def add_project_question (db : DB) (projectId : Nat) (d : AddQuestionPayload) :
    Except ApiError DB :=
  match db.projects.find? (fun p => p.id == projectId) with
  | none => .error (.notFound "Project not found")
  | some _ =>
    let maxOrder := maxDefault0 ((db.projectQuestions.filter
      (fun pq => pq.project_id == projectId)).map (fun pq => pq.question_order))
    let maxCustom := maxDefault0 ((db.customQuestions.filter
      (fun c => c.project_id == projectId)).map (fun c => c.question_order))
    let nextOrder := max maxOrder maxCustom + 1
    match d.master_question_id with
    | some mq =>
      let pq : ProjectQuestion :=
        { id := db.nextPQId, project_id := projectId, master_question_id := mq,
          question_order := (d.question_order).getD nextOrder,
          custom_text := d.custom_text, custom_options_json := none,
          is_breakout := (d.is_breakout).getD false }
      .ok { db with
        projectQuestions := db.projectQuestions ++ [pq],
        nextPQId := db.nextPQId + 1 }
    | none =>
      let cq : CustomQuestion :=
        { id := db.nextCQId, project_id := projectId,
          question_text := d.question_text,
          question_order := (d.question_order).getD nextOrder,
          question_type := d.question_type,
          likert_low_label := d.likert_low_label,
          likert_high_label := d.likert_high_label,
          is_breakout := (d.is_breakout).getD false }
      .ok { db with
        customQuestions := db.customQuestions ++ [cq],
        customResponseOptions := db.customResponseOptions ++
          mkAdminOptionRows cq.id db.nextCROId 0 d.response_options,
        nextCQId := db.nextCQId + 1,
        nextCROId := db.nextCROId + d.response_options.length }

/-- Request body of `PUT /api/projects/{id}` restricted to the fields the
claims touch. `none` models an absent key. -/
structure ProjectUpdate where
  project_name : Option String
  company_name : Option String
  status : Option String
deriving DecidableEq

/-- The status-and-timestamp logic of `update_project` (app.py:927): the
timestamp branch is an `if new=='active' and status!='active' ... elif
new=='closed' and status!='closed' ...` chain, then `status = new_status`. -/
def update_project (p : Project) (d : ProjectUpdate) (now : Nat) : Project :=
  let p1 := match d.project_name with
    | some v => { p with project_name := v }
    | none => p
  let p2 := match d.company_name with
    | some v => { p1 with company_name := v }
    | none => p1
  match d.status with
  | none => p2
  | some s =>
    let p3 :=
      if s = "active" ∧ p2.status ≠ "active" then { p2 with opened_at := some now }
      else if s = "closed" ∧ p2.status ≠ "closed" then { p2 with closed_at := some now }
      else p2
    { p3 with status := s }

/-- `POST /api/survey/{access_code}/start` (app.py:1239): refuses unless the
project is active, otherwise records a new SurveyResponse. `newCode` stands
for the generated `uuid4` response code. -/
def start_survey (db : DB) (accessCode : String) (now : Nat) (newCode : String) :
    Except ApiError (DB × String) :=
  match db.projects.find? (fun p => p.access_code == pyUpper accessCode) with
  | none => .error (.notFound "Project not found")
  | some project =>
    if project.status ≠ "active" then
      .error (.badRequest "Survey is not currently active")
    else
      let r : SurveyResponse :=
        { id := db.nextRespId, project_id := project.id, response_code := newCode,
          is_complete := false, started_at := now, completed_at := none,
          last_activity := now }
      .ok ({ db with
        responses := db.responses ++ [r],
        nextRespId := db.nextRespId + 1 }, newCode)

/-- Python truthiness of `data.get('..._question_id')` for an integer id. -/
def truthyId : Option Nat → Bool
  | some n => n != 0
  | none => false

/-- Request body of `POST /api/survey/{access_code}/answer`. -/
structure AnswerPayload where
  response_code : String
  project_question_id : Option Nat
  custom_question_id : Option Nat
  answer_text : Option String
  answer_code : Option String
  answer_numeric : Option ℚ
  answer_multi : Option (List String)
deriving DecidableEq

/-- The existing-answer lookup of `submit_answer` (app.py:1284): by
(response, project question) when `data.get('project_question_id')` is
truthy, else by (response, custom question) when that id is truthy, else
no lookup at all. -/
def findExisting (db : DB) (rid : Nat) (p : AnswerPayload) : Option ResponseAnswer :=
  if truthyId p.project_question_id then
    db.answers.find? (fun a => a.response_id == rid &&
      a.project_question_id == p.project_question_id)
  else if truthyId p.custom_question_id then
    db.answers.find? (fun a => a.response_id == rid &&
      a.custom_question_id == p.custom_question_id)
  else none

/-- Overwriting an existing answer row in place: text, code, numeric and
multi fields only. -/
def overwriteAnswer (p : AnswerPayload) (a : ResponseAnswer) : ResponseAnswer :=
  { a with
    answer_text := p.answer_text,
    answer_code := p.answer_code,
    answer_numeric := p.answer_numeric,
    answer_multi := p.answer_multi }

/-- The freshly inserted answer row: both question-id fields are copied
from the payload as given. -/
def newAnswerRow (aid rid : Nat) (p : AnswerPayload) : ResponseAnswer :=
  { id := aid, response_id := rid,
    project_question_id := p.project_question_id,
    custom_question_id := p.custom_question_id,
    answer_text := p.answer_text, answer_code := p.answer_code,
    answer_numeric := p.answer_numeric, answer_multi := p.answer_multi }

/-- The upsert at the heart of `submit_answer` (app.py:1284): look up an
existing answer by the (response, question) natural key, overwrite it in
place if found, insert otherwise; always bump `last_activity`. -/
def submitCore (db : DB) (response : SurveyResponse) (p : AnswerPayload)
    (now : Nat) : DB :=
  let responses2 := db.responses.map (fun r =>
    if r.id == response.id then { r with last_activity := now } else r)
  match findExisting db response.id p with
  | some ex =>
    { db with
      answers := db.answers.map (fun a =>
        if a.id == ex.id then overwriteAnswer p a else a),
      responses := responses2 }
  | none =>
    { db with
      answers := db.answers ++ [newAnswerRow db.nextAnsId response.id p],
      responses := responses2,
      nextAnsId := db.nextAnsId + 1 }

/-- `POST /api/survey/{access_code}/answer` (app.py:1267). -/
def submit_answer (db : DB) (accessCode : String) (p : AnswerPayload)
    (now : Nat) : Except ApiError DB :=
  match db.projects.find? (fun pr => pr.access_code == pyUpper accessCode) with
  | none => .error (.notFound "Project not found")
  | some project =>
    if project.status ≠ "active" then
      .error (.badRequest "Survey is not currently active")
    else
      match db.responses.find? (fun r => r.response_code == p.response_code &&
          r.project_id == project.id) with
      | none => .error (.notFound "Response not found")
      | some response => .ok (submitCore db response p now)

/-- `POST /api/survey/{access_code}/complete` (app.py:1324): looks up the
project and the response, then unconditionally marks the response complete
and stamps `completed_at` — there is no check of the project's status. -/
def complete_survey (db : DB) (accessCode : String) (responseCode : String)
    (now : Nat) : Except ApiError DB :=
  match db.projects.find? (fun p => p.access_code == pyUpper accessCode) with
  | none => .error (.notFound "Project not found")
  | some project =>
    match db.responses.find? (fun r => r.response_code == responseCode &&
        r.project_id == project.id) with
    | none => .error (.notFound "Response not found")
    | some response =>
      .ok { db with responses := db.responses.map (fun r =>
        if r.id == response.id then
          { r with is_complete := true, completed_at := some now }
        else r) }

/-- Round a rational to the nearest integer, ties to even — the behavior of
Python 3 `round` on exact values. -/
def roundHalfEven (q : ℚ) : ℤ :=
  let f := ⌊q⌋
  let r := q - f
  if r < 1/2 then f
  else if 1/2 < r then f + 1
  else if f % 2 = 0 then f else f + 1

/-- Python `round(x, 1)` on exact values. -/
def pyRound1 (q : ℚ) : ℚ := (roundHalfEven (q * 10) : ℚ) / 10

/-- `answer.answer_text or 'No Response'`: the distribution key, with the
sentinel substituted for absent or empty text. -/
def keyOf (a : ResponseAnswer) : String :=
  match a.answer_text with
  | some t => if t = "" then "No Response" else t
  | none => "No Response"

/-- `distribution[key] = distribution.get(key, 0) + 1` on an
insertion-ordered association list. -/
def bump : List (String × Nat) → String → List (String × Nat)
  | [], k => [(k, 1)]
  | (k0, c) :: rest, k =>
    if k0 = k then (k0, c + 1) :: rest else (k0, c) :: bump rest k

/-- The frequency table of a list of keys. -/
def countKeys (keys : List String) : List (String × Nat) :=
  keys.foldl bump []

/-- The join of `calculate_question_results`: the answer belongs to a
SurveyResponse of this project with `is_complete == True`. -/
def completeFor (db : DB) (projectId : Nat) (a : ResponseAnswer) : Bool :=
  db.responses.any (fun r => r.id == a.response_id &&
    r.project_id == projectId && r.is_complete)

/-- The fields of the question object that `calculate_question_results`
reads. -/
structure QInfo where
  question_text : String
  question_type : String
deriving DecidableEq

/-- The per-question result object: distribution entries are
`(key, count, percentage)`. -/
structure QResults where
  question_text : String
  question_type : String
  total_responses : Nat
  distribution : List (String × Nat × ℚ)
deriving DecidableEq

/-- `calculate_question_results` (app.py:1391): qualifying answers joined
through complete responses of the project, frequency table keyed by answer
text with the `"No Response"` sentinel, percentage
`round(count / total * 100, 1)` guarded against `total == 0`. -/
def calculate_question_results (db : DB) (projectId : Nat)
    (pq_id cq_id : Option Nat) (question : QInfo) : QResults :=
  let answers :=
    if truthyId pq_id then
      db.answers.filter (fun a => completeFor db projectId a &&
        a.project_question_id == pq_id)
    else
      db.answers.filter (fun a => completeFor db projectId a &&
        a.custom_question_id == cq_id)
  let total := answers.length
  let distribution := countKeys (answers.map keyOf)
  let percentages := distribution.map (fun kc =>
    (kc.1, kc.2, if 0 < total then pyRound1 ((kc.2 : ℚ) / (total : ℚ) * 100) else 0))
  { question_text := question.question_text,
    question_type := question.question_type,
    total_responses := total, distribution := percentages }

/-- Stable insertion into a list sorted by an integer key. -/
def insertByKey {α : Type} (key : α → Int) (x : α) : List α → List α
  | [] => [x]
  | y :: ys => if key y < key x then y :: insertByKey key x ys else x :: y :: ys

/-- `ORDER BY` on an integer column. -/
def sortByKey {α : Type} (key : α → Int) : List α → List α
  | [] => []
  | x :: xs => insertByKey key x (sortByKey key xs)

/-- `GET /api/projects/{id}/export/csv` (app.py:1435) as the list of CSV
rows: a header of `Response ID`, `Completed`, the project questions by
order and then the custom questions by order; one data row per completed
response, cells holding the answer text or the empty string. -/
def export_csv (db : DB) (projectId : Nat) : List (List String) :=
  let pqs := sortByKey (fun pq => pq.question_order)
    (db.projectQuestions.filter (fun pq => pq.project_id == projectId))
  let cqs := sortByKey (fun c => c.question_order)
    (db.customQuestions.filter (fun c => c.project_id == projectId))
  let headers := ["Response ID", "Completed"] ++
    pqs.map (fun pq => "Q" ++ toString pq.question_order) ++
    cqs.map (fun c => "Q" ++ toString c.question_order)
  let completed := db.responses.filter (fun r =>
    r.project_id == projectId && r.is_complete)
  let rows := completed.map (fun r =>
    [r.response_code.take 8, if r.is_complete then "Yes" else "No"] ++
    pqs.map (fun pq =>
      match db.answers.find? (fun a => a.response_id == r.id &&
          a.project_question_id == some pq.id) with
      | some a => (a.answer_text).getD ""
      | none => "") ++
    cqs.map (fun c =>
      match db.answers.find? (fun a => a.response_id == r.id &&
          a.custom_question_id == some c.id) with
      | some a => (a.answer_text).getD ""
      | none => ""))
  headers :: rows

/-- A submission carrying exactly one meaningful question reference, as the
survey protocol sends them. -/
def WFPayload (p : AnswerPayload) : Prop :=
  (truthyId p.project_question_id = true ∧ p.custom_question_id = none) ∨
  (truthyId p.custom_question_id = true ∧ p.project_question_id = none)

instance (p : AnswerPayload) : Decidable (WFPayload p) := by
  unfold WFPayload; infer_instance

/-- At most one ResponseAnswer row per (response, ProjectQuestion) pair and
per (response, CustomQuestion) pair. -/
def AtMostOnePerPair (db : DB) : Prop :=
  ∀ rid q, q ≠ 0 →
    db.answers.countP (fun a => a.response_id == rid &&
      a.project_question_id == some q) ≤ 1 ∧
    db.answers.countP (fun a => a.response_id == rid &&
      a.custom_question_id == some q) ≤ 1

/-- An answer row referencing exactly one of ProjectQuestion or
CustomQuestion. -/
def ExactlyOneRef (a : ResponseAnswer) : Prop :=
  (a.project_question_id ≠ none ∧ a.custom_question_id = none) ∨
  (a.custom_question_id ≠ none ∧ a.project_question_id = none)

instance (a : ResponseAnswer) : Decidable (ExactlyOneRef a) := by
  unfold ExactlyOneRef; infer_instance

/-- One answer-submission request. -/
structure SubmitReq where
  access_code : String
  payload : AnswerPayload
  now : Nat
deriving DecidableEq

/-- One submission against the store; a rejected request commits nothing. -/
def submitStep (db : DB) (req : SubmitReq) : DB :=
  match submit_answer db req.access_code req.payload req.now with
  | .ok db2 => db2
  | .error _ => db

/-- A sequence of answer submissions. -/
def submitMany (db : DB) (reqs : List SubmitReq) : DB :=
  reqs.foldl submitStep db

/-! ### Helper lemmas about the basic set and max operations -/

theorem mem_insertSet {l : List Int} {n x : Int} :
    x ∈ insertSet l n ↔ x ∈ l ∨ x = n := by
  unfold insertSet
  split
  · constructor
    · exact fun h => Or.inl h
    · rintro (h | rfl)
      · exact h
      · assumption
  · simp [List.mem_append]

theorem nodup_insertSet {l : List Int} (h : l.Nodup) (n : Int) :
    (insertSet l n).Nodup := by
  unfold insertSet
  split
  · exact h
  · rw [List.nodup_append]
    refine ⟨h, List.nodup_singleton n, ?_⟩
    intro x hx hx1
    rw [List.mem_singleton] at hx1
    subst hx1
    exact absurd hx (by assumption)

theorem mem_foldl_insertSet (l : List Int) (acc : List Int) (x : Int) :
    x ∈ l.foldl insertSet acc ↔ x ∈ acc ∨ x ∈ l := by
  induction l generalizing acc with
  | nil => simp
  | cons a t ih =>
    rw [List.foldl_cons, ih, mem_insertSet, List.mem_cons]
    tauto

theorem nodup_foldl_insertSet (l : List Int) (acc : List Int) (h : acc.Nodup) :
    (l.foldl insertSet acc).Nodup := by
  induction l generalizing acc with
  | nil => exact h
  | cons a t ih => exact ih _ (nodup_insertSet h a)

theorem sanStep_of_none {v : JVal} (h : coerceId v = none) (acc : List Int) :
    sanStep acc v = acc := by
  simp [sanStep, h]

theorem sanStep_of_some {v : JVal} {n : Int} (h : coerceId v = some n)
    (acc : List Int) : sanStep acc v = insertSet acc n := by
  simp [sanStep, h]

theorem mem_sanitizeFold (raw : List JVal) (acc : List Int) (x : Int) :
    x ∈ raw.foldl sanStep acc ↔ x ∈ acc ∨ ∃ v ∈ raw, coerceId v = some x := by
  induction raw generalizing acc with
  | nil => simp
  | cons a t ih =>
    rw [List.foldl_cons]
    cases h : coerceId a with
    | none =>
      rw [sanStep_of_none h, ih]
      simp only [List.mem_cons]
      constructor
      · rintro (hx | ⟨v, hv, hc⟩)
        · exact Or.inl hx
        · exact Or.inr ⟨v, Or.inr hv, hc⟩
      · rintro (hx | ⟨v, (rfl | hv), hc⟩)
        · exact Or.inl hx
        · rw [h] at hc; cases hc
        · exact Or.inr ⟨v, hv, hc⟩
    | some n =>
      rw [sanStep_of_some h, ih]
      simp only [mem_insertSet, List.mem_cons]
      constructor
      · rintro ((hx | rfl) | ⟨v, hv, hc⟩)
        · exact Or.inl hx
        · exact Or.inr ⟨a, Or.inl rfl, h⟩
        · exact Or.inr ⟨v, Or.inr hv, hc⟩
      · rintro (hx | ⟨v, (rfl | hv), hc⟩)
        · exact Or.inl (Or.inl hx)
        · rw [h] at hc
          exact Or.inl (Or.inr (Option.some_inj.mp hc).symm)
        · exact Or.inr ⟨v, hv, hc⟩

theorem mem_sanitizeIds {raw : List JVal} {x : Int} :
    x ∈ sanitizeIds raw ↔ ∃ v ∈ raw, coerceId v = some x := by
  unfold sanitizeIds
  rw [mem_sanitizeFold]
  simp

theorem nodup_sanitizeFold (raw : List JVal) (acc : List Int) (h : acc.Nodup) :
    (raw.foldl sanStep acc).Nodup := by
  induction raw generalizing acc with
  | nil => exact h
  | cons a t ih =>
    rw [List.foldl_cons]
    cases hc : coerceId a with
    | none => rw [sanStep_of_none hc]; exact ih _ h
    | some n => rw [sanStep_of_some hc]; exact ih _ (nodup_insertSet h n)

theorem nodup_sanitizeIds (raw : List JVal) : (sanitizeIds raw).Nodup :=
  nodup_sanitizeFold raw [] List.nodup_nil

theorem foldl_max_init_le (l : List Int) (acc : Int) : acc ≤ l.foldl max acc := by
  induction l generalizing acc with
  | nil => simp
  | cons a t ih => exact le_trans (le_max_left acc a) (ih (max acc a))

theorem mem_le_foldl_max {l : List Int} {x : Int} (h : x ∈ l) (acc : Int) :
    x ≤ l.foldl max acc := by
  induction l generalizing acc with
  | nil => cases h
  | cons a t ih =>
    rcases List.mem_cons.mp h with rfl | h2
    · exact le_trans (le_max_right acc x) (foldl_max_init_le t _)
    · exact ih h2 _

theorem le_maxDefault0 {l : List Int} {x : Int} (h : x ∈ l) : x ≤ maxDefault0 l := by
  cases l with
  | nil => cases h
  | cons a t =>
    unfold maxDefault0
    rcases List.mem_cons.mp h with rfl | h2
    · exact foldl_max_init_le t x
    · exact mem_le_foldl_max h2 a

/-- The order numbers handed out by the bulk-sync add loop: consecutive
integers starting one above the running max. -/
def consecutiveFrom (o : Int) : Nat → List Int
  | 0 => []
  | n + 1 => (o + 1) :: consecutiveFrom (o + 1) n

theorem mem_consecutiveFrom {o x : Int} {n : Nat}
    (h : x ∈ consecutiveFrom o n) : o < x := by
  induction n generalizing o with
  | zero => cases h
  | succ m ih =>
    rcases List.mem_cons.mp h with rfl | h2
    · exact lt_add_one o
    · exact lt_trans (lt_add_one o) (ih h2)

theorem mkNewRows_map_mq (s : Nat) (o : Int) (pid : Nat)
    (opts : Int → List OptPair) (l : List Int) :
    (mkNewRows s o pid opts l).map (fun pq => pq.master_question_id) = l := by
  induction l generalizing s o with
  | nil => rfl
  | cons a t ih => simp [mkNewRows, ih]

theorem mkNewRows_map_order (s : Nat) (o : Int) (pid : Nat)
    (opts : Int → List OptPair) (l : List Int) :
    (mkNewRows s o pid opts l).map (fun pq => pq.question_order) =
      consecutiveFrom o l.length := by
  induction l generalizing s o with
  | nil => rfl
  | cons a t ih => simp [mkNewRows, consecutiveFrom, ih]

theorem mkNewRows_fields (s : Nat) (o : Int) (pid : Nat)
    (opts : Int → List OptPair) (l : List Int) :
    ∀ pq ∈ mkNewRows s o pid opts l,
      pq.project_id = pid ∧ s ≤ pq.id ∧ o < pq.question_order := by
  induction l generalizing s o with
  | nil => intro pq h; cases h
  | cons a t ih =>
    intro pq h
    rcases List.mem_cons.mp h with rfl | h2
    · exact ⟨rfl, le_refl s, lt_add_one o⟩
    · obtain ⟨h1, h2a, h3⟩ := ih (s + 1) (o + 1) pq h2
      exact ⟨h1, le_trans (Nat.le_succ s) h2a, lt_trans (lt_add_one o) h3⟩

theorem mkNewRows_mem_of_mq {s : Nat} {o : Int} {pid : Nat}
    {opts : Int → List OptPair} {l : List Int} {mq : Int} (h : mq ∈ l) :
    ∃ pq ∈ mkNewRows s o pid opts l, pq.master_question_id = mq := by
  have := mkNewRows_map_mq s o pid opts l
  rw [← this] at h
  obtain ⟨pq, hm, he⟩ := List.mem_map.mp h
  exact ⟨pq, hm, he⟩

theorem two_le_countP {α : Type} {l : List α} {p : α → Bool} {x y : α}
    (hx : x ∈ l) (hy : y ∈ l) (hxy : x ≠ y)
    (hpx : p x = true) (hpy : p y = true) :
    2 ≤ l.countP p := by
  induction l with
  | nil => cases hx
  | cons a t ih =>
    rw [List.countP_cons]
    rcases List.mem_cons.mp hx with rfl | hx2
    · rcases List.mem_cons.mp hy with rfl | hy2
      · exact absurd rfl hxy
      · have h1 : 0 < t.countP p := List.countP_pos_iff.mpr ⟨y, hy2, hpy⟩
        rw [if_pos hpx]
        omega
    · rcases List.mem_cons.mp hy with rfl | hy2
      · have h1 : 0 < t.countP p := List.countP_pos_iff.mpr ⟨x, hx2, hpx⟩
        rw [if_pos hpy]
        omega
      · have h1 := ih hx2 hy2
        omega

theorem filter_eq_singleton_of_nodup_key {α β : Type} [BEq β] [LawfulBEq β]
    {l : List α} {f : α → β} (hn : (l.map f).Nodup) {x : α} (hx : x ∈ l) :
    l.filter (fun y => f y == f x) = [x] := by
  induction l with
  | nil => cases hx
  | cons a t ih =>
    rw [List.map_cons, List.nodup_cons] at hn
    rcases List.mem_cons.mp hx with rfl | hx2
    · rw [List.filter_cons]
      simp only [beq_self_eq_true, if_pos]
      have ht : t.filter (fun y => f y == f x) = [] := by
        rw [List.filter_eq_nil_iff]
        intro b hb hfb
        exact hn.1 (List.mem_map.mpr ⟨b, hb, eq_of_beq hfb⟩)
      rw [ht]
    · rw [List.filter_cons]
      have hne : (f a == f x) = false := by
        rw [beq_eq_false_iff_ne]
        intro he
        exact hn.1 (he ▸ List.mem_map.mpr ⟨x, hx2, rfl⟩)
      rw [hne]
      simp only [Bool.false_eq_true, if_false]
      exact ih hn.2 hx2

theorem lastWithMq_self {l : List ProjectQuestion}
    (hn : (l.map (fun pq => pq.master_question_id)).Nodup)
    {pq : ProjectQuestion} (hm : pq ∈ l) :
    lastWithMq l pq.master_question_id = some pq := by
  unfold lastWithMq
  rw [filter_eq_singleton_of_nodup_key hn hm]
  rfl

theorem lastWithMq_mem {l : List ProjectQuestion} {mq : Int}
    {pq : ProjectQuestion} (h : lastWithMq l mq = some pq) :
    pq ∈ l ∧ pq.master_question_id = mq := by
  unfold lastWithMq at h
  have hmem : pq ∈ l.filter (fun x => x.master_question_id == mq) :=
    List.mem_of_mem_getLast? h
  have h2 := List.mem_filter.mp hmem
  exact ⟨h2.1, by simpa using h2.2⟩

theorem truthyId_iff {o : Option Nat} :
    truthyId o = true ↔ ∃ n, o = some n ∧ n ≠ 0 := by
  cases o with
  | none => simp [truthyId]
  | some n => simp [truthyId]

/-! ### Test fixtures: small concrete database states -/

/-- A draft project. -/
def fxDraft : Project :=
  { id := 1, project_name := "P", company_name := "C", access_code := "AB",
    status := "draft", opened_at := none, closed_at := none }

/-- A status-only project update payload. -/
def statusUpd (s : String) : ProjectUpdate :=
  { project_name := none, company_name := none, status := some s }

/-! ### C9: opened_at / closed_at stamping -/

/-- C9 counterexample: starting from a draft project, the update sequence
active (t=1), closed (t=2), active (t=3) leaves `opened_at = some 3`: the
timestamp set at the first transition into `active` (`some 1`) is
overwritten when the project re-enters `active`, so `opened_at` is not
assigned exactly once as the claim states. -/
theorem C9_counterexample :
    (update_project fxDraft (statusUpd "active") 1).opened_at = some 1 ∧
    (update_project (update_project (update_project fxDraft (statusUpd "active") 1)
        (statusUpd "closed") 2) (statusUpd "active") 3).opened_at = some 3 ∧
    some (3 : Nat) ≠ some 1 := by
  decide

/-- C9 (amended): `update_project` stamps `opened_at := now` on every
update whose new status is `active` while the current status is not
`active` — including re-entries, so the field holds the most recent such
transition, not the first — and symmetrically stamps `closed_at` on every
transition into `closed`; an update that does not transition into the
respective status leaves that timestamp unchanged, and a status-free
update changes neither timestamp nor the status. -/
theorem C9_status_timestamps_restamped (p : Project) (d : ProjectUpdate) (now : Nat) :
    (d.status = none → (update_project p d now).opened_at = p.opened_at ∧
      (update_project p d now).closed_at = p.closed_at ∧
      (update_project p d now).status = p.status) ∧
    (d.status = some "active" → p.status ≠ "active" →
      (update_project p d now).opened_at = some now ∧
      (update_project p d now).closed_at = p.closed_at ∧
      (update_project p d now).status = "active") ∧
    (d.status = some "active" → p.status = "active" →
      (update_project p d now).opened_at = p.opened_at ∧
      (update_project p d now).closed_at = p.closed_at) ∧
    (d.status = some "closed" → p.status ≠ "closed" →
      (update_project p d now).closed_at = some now ∧
      (update_project p d now).opened_at = p.opened_at ∧
      (update_project p d now).status = "closed") ∧
    (d.status = some "closed" → p.status = "closed" →
      (update_project p d now).closed_at = p.closed_at ∧
      (update_project p d now).opened_at = p.opened_at) ∧
    (∀ s, d.status = some s → s ≠ "active" → s ≠ "closed" →
      (update_project p d now).opened_at = p.opened_at ∧
      (update_project p d now).closed_at = p.closed_at ∧
      (update_project p d now).status = s) := by
  obtain ⟨pn, cn, st⟩ := d
  refine ⟨?_, ?_, ?_, ?_, ?_, ?_⟩
  · intro h
    simp only at h
    subst h
    cases pn <;> cases cn <;> simp [update_project]
  · intro h hs
    simp only at h
    subst h
    cases pn <;> cases cn <;> simp [update_project, hs]
  · intro h hs
    simp only at h
    subst h
    cases pn <;> cases cn <;> simp [update_project, hs]
  · intro h hs
    simp only at h
    subst h
    cases pn <;> cases cn <;> simp [update_project, hs]
  · intro h hs
    simp only at h
    subst h
    cases pn <;> cases cn <;> simp [update_project, hs]
  · intro s h hs1 hs2
    simp only at h
    subst h
    cases pn <;> cases cn <;> simp [update_project, hs1, hs2]

/-! ### C7: project-active gating of the survey-taking operations -/

/-- A closed project with access code `AB`. -/
def fxClosedProject : Project := { fxDraft with status := "closed" }

/-- A not-yet-complete response with code `RC` for project 1. -/
def fxResp : SurveyResponse :=
  { id := 1, project_id := 1, response_code := "RC", is_complete := false,
    started_at := 0, completed_at := none, last_activity := 0 }

/-- A store holding only the closed project and its one response. -/
def fxClosedDB : DB :=
  { projects := [fxClosedProject], projectQuestions := [], customQuestions := [],
    customResponseOptions := [], responses := [fxResp], answers := [],
    nextPQId := 1, nextCQId := 1, nextCROId := 1, nextRespId := 2, nextAnsId := 1 }

/-- A well-formed answer payload for response `RC`, project question 1. -/
def fxPay : AnswerPayload :=
  { response_code := "RC", project_question_id := some 1,
    custom_question_id := none, answer_text := some "Yes", answer_code := none,
    answer_numeric := none, answer_multi := none }

/-- C7 counterexample: on a project whose status is `closed` (not
`active`), `complete_survey` does not reject with an error — it succeeds
and mutates the response, marking it complete and stamping
`completed_at`, contradicting the claim that completion is gated on the
project being active at call time. -/
theorem C7_counterexample :
    fxClosedProject.status ≠ "active" ∧
    complete_survey fxClosedDB "AB" "RC" 9 =
      .ok { fxClosedDB with
        responses := [{ fxResp with is_complete := true, completed_at := some 9 }] } ∧
    ({ fxClosedDB with
        responses := [{ fxResp with is_complete := true, completed_at := some 9 }] } : DB)
      ≠ fxClosedDB := by
  refine ⟨by decide, by decide, by decide⟩

/-- C7 (amended): `start_survey` and `submit_answer` are rejected with a
400 error and no state change whenever the owning project's status is not
`active`; `complete_survey`, by contrast, is not status-gated — given the
project and a valid response code it succeeds for any project status,
marking the response complete and stamping `completed_at`, while answers
already recorded remain untouched. -/
theorem C7_active_gating (db : DB) (ac rc code : String) (now : Nat)
    (pay : AnswerPayload) (project : Project) (response : SurveyResponse)
    (hp : db.projects.find? (fun pr => pr.access_code == pyUpper ac) = some project)
    (hs : project.status ≠ "active")
    (hr : db.responses.find? (fun r => r.response_code == rc &&
      r.project_id == project.id) = some response) :
    start_survey db ac now code =
      .error (.badRequest "Survey is not currently active") ∧
    submit_answer db ac pay now =
      .error (.badRequest "Survey is not currently active") ∧
    complete_survey db ac rc now =
      .ok { db with responses := db.responses.map (fun r =>
        if r.id == response.id then
          { r with is_complete := true, completed_at := some now }
        else r) } ∧
    (∃ r2 ∈ db.responses.map (fun r =>
        if r.id == response.id then
          { r with is_complete := true, completed_at := some now }
        else r), r2.id = response.id ∧ r2.is_complete = true ∧
        r2.completed_at = some now) ∧
    (∀ db2, complete_survey db ac rc now = .ok db2 → db2.answers = db.answers) := by
  refine ⟨?_, ?_, ?_, ?_, ?_⟩
  · simp [start_survey, hp, hs]
  · simp [submit_answer, hp, hs]
  · simp [complete_survey, hp, hr]
  · refine ⟨{ response with is_complete := true, completed_at := some now }, ?_, rfl, rfl, rfl⟩
    refine List.mem_map.mpr ⟨response, List.mem_of_find?_eq_some hr, ?_⟩
    simp
  · intro db2 h2
    simp only [complete_survey, hp, hr] at h2
    cases h2
    rfl

/-- C7 witness: the amended statement realized on the concrete closed
project store. -/
theorem C7_witness :
    start_survey fxClosedDB "AB" 5 "NEW" =
      .error (.badRequest "Survey is not currently active") ∧
    submit_answer fxClosedDB "AB" fxPay 5 =
      .error (.badRequest "Survey is not currently active") ∧
    complete_survey fxClosedDB "AB" "RC" 5 =
      .ok { fxClosedDB with responses := fxClosedDB.responses.map (fun r =>
        if r.id == fxResp.id then
          { r with is_complete := true, completed_at := some 5 }
        else r) } ∧
    (∃ r2 ∈ fxClosedDB.responses.map (fun r =>
        if r.id == fxResp.id then
          { r with is_complete := true, completed_at := some 5 }
        else r), r2.id = fxResp.id ∧ r2.is_complete = true ∧
        r2.completed_at = some 5) ∧
    (∀ db2, complete_survey fxClosedDB "AB" "RC" 5 = .ok db2 →
      db2.answers = fxClosedDB.answers) :=
  C7_active_gating fxClosedDB "AB" "RC" "NEW" 5 fxPay fxClosedProject fxResp
    (by decide) (by decide) (by decide)

/-! ### C8: every answer references exactly one question -/

/-- Destructuring a successful `submit_answer` call into its lookups and
its core upsert. -/
theorem submit_answer_ok_cases {db : DB} {ac : String} {p : AnswerPayload}
    {now : Nat} {db2 : DB} (hok : submit_answer db ac p now = .ok db2) :
    ∃ project response,
      db.projects.find? (fun pr => pr.access_code == pyUpper ac) = some project ∧
      project.status = "active" ∧
      db.responses.find? (fun r => r.response_code == p.response_code &&
        r.project_id == project.id) = some response ∧
      db2 = submitCore db response p now := by
  unfold submit_answer at hok
  cases hp : db.projects.find? (fun pr => pr.access_code == pyUpper ac) with
  | none => simp [hp] at hok
  | some project =>
    rw [hp] at hok
    simp only [ne_eq] at hok
    by_cases hs : project.status = "active"
    · rw [if_neg (fun h => h hs)] at hok
      cases hr : db.responses.find? (fun r => r.response_code == p.response_code &&
          r.project_id == project.id) with
      | none => simp [hr] at hok
      | some response =>
        rw [hr] at hok
        simp only at hok
        cases hok
        exact ⟨project, response, rfl, hs, hr, rfl⟩
    · rw [if_pos hs] at hok
      cases hok

theorem truthy_ne_none {o : Option Nat} (h : truthyId o = true) : o ≠ none := by
  cases o with
  | none => simp [truthyId] at h
  | some n => simp

theorem overwriteAnswer_ids (p : AnswerPayload) (b : ResponseAnswer) :
    (overwriteAnswer p b).project_question_id = b.project_question_id ∧
    (overwriteAnswer p b).custom_question_id = b.custom_question_id ∧
    (overwriteAnswer p b).response_id = b.response_id ∧
    (overwriteAnswer p b).id = b.id := by
  refine ⟨rfl, rfl, rfl, rfl⟩

/-- The rows of the upserted answer table: an overwrite keeps each row's
question references, an insert appends a row carrying the payload's two
question-id fields. -/
theorem submitCore_exactlyOneRef {db : DB} {response : SurveyResponse}
    {p : AnswerPayload} {now : Nat} (hwf : WFPayload p)
    (hall : ∀ a ∈ db.answers, ExactlyOneRef a) :
    ∀ a ∈ (submitCore db response p now).answers, ExactlyOneRef a := by
  intro a ha
  simp only [submitCore] at ha
  cases hE : findExisting db response.id p with
  | some ex =>
    rw [hE] at ha
    simp only at ha
    obtain ⟨b, hb, rfl⟩ := List.mem_map.mp ha
    by_cases hid : (b.id == ex.id) = true
    · rw [if_pos hid]
      have hids := overwriteAnswer_ids p b
      unfold ExactlyOneRef
      rw [hids.1, hids.2.1]
      exact hall b hb
    · rw [if_neg hid]
      exact hall b hb
  | none =>
    rw [hE] at ha
    simp only at ha
    rcases List.mem_append.mp ha with hold | hnew
    · exact hall a hold
    · rw [List.mem_singleton] at hnew
      subst hnew
      rcases hwf with ⟨htr, hcn⟩ | ⟨htr, hpn⟩
      · exact Or.inl ⟨truthy_ne_none htr, hcn⟩
      · exact Or.inr ⟨truthy_ne_none htr, hpn⟩

/-- Every answer row of a store references exactly one of ProjectQuestion
or CustomQuestion. -/
def AllExactlyOne (db : DB) : Prop :=
  ∀ a ∈ db.answers, ExactlyOneRef a

/-- An active project with access code `AB`. -/
def fxActiveProject : Project := { fxDraft with status := "active" }

/-- The closed-project store with the project switched to active. -/
def fxActiveDB : DB := { fxClosedDB with projects := [fxActiveProject] }

/-- A payload naming both a ProjectQuestion and a CustomQuestion. -/
def fxPayBoth : AnswerPayload :=
  { response_code := "RC", project_question_id := some 1,
    custom_question_id := some 2, answer_text := some "hi",
    answer_code := none, answer_numeric := none, answer_multi := none }

/-- C8 counterexample: a submission whose payload carries both
`project_question_id` and `custom_question_id` succeeds and inserts a row
referencing both questions — `submit_answer` copies both id fields
verbatim on insert, so the exactly-one invariant does not hold for every
combination of present/absent ids, contradicting the claim. -/
theorem C8_counterexample :
    submit_answer fxActiveDB "AB" fxPayBoth 5 =
      .ok { fxActiveDB with
        responses := [{ fxResp with last_activity := 5 }],
        answers := [newAnswerRow 1 1 fxPayBoth],
        nextAnsId := 2 } ∧
    (newAnswerRow 1 1 fxPayBoth).project_question_id = some 1 ∧
    (newAnswerRow 1 1 fxPayBoth).custom_question_id = some 2 ∧
    ¬ ExactlyOneRef (newAnswerRow 1 1 fxPayBoth) := by
  refine ⟨by decide, by decide, by decide, by decide⟩

/-- C8 (amended): provided every submission carries exactly one meaningful
question id, `submit_answer` preserves the invariant that every
ResponseAnswer references exactly one of ProjectQuestion or
CustomQuestion: an overwrite keeps the row's references and an insert
copies the single id the payload carries. (The schema itself leaves both
columns nullable, and a payload carrying both or neither produces a
violating row, as the counterexample shows.) -/
theorem C8_exactly_one_reference (db : DB) (ac : String) (p : AnswerPayload)
    (now : Nat) (db2 : DB) (hwf : WFPayload p)
    (hall : AllExactlyOne db)
    (hok : submit_answer db ac p now = .ok db2) :
    AllExactlyOne db2 := by
  obtain ⟨project, response, hp, hs, hr, rfl⟩ := submit_answer_ok_cases hok
  exact submitCore_exactlyOneRef hwf hall

/-- C8 witness: the amended statement realized on a concrete well-formed
submission. -/
theorem C8_witness :
    AllExactlyOne { fxActiveDB with
      responses := [{ fxResp with last_activity := 5 }],
      answers := [newAnswerRow 1 1 fxPay],
      nextAnsId := 2 } :=
  C8_exactly_one_reference fxActiveDB "AB" fxPay 5 _ (by decide)
    (fun a ha => by cases ha) (by decide)

/-! ### C4: upsert semantics and the at-most-one-answer invariant -/

/-- The (response, question) natural key of a submission: the question
reference the lookup of `submit_answer` uses. -/
def pairMatch (p : AnswerPayload) (rid : Nat) (a : ResponseAnswer) : Prop :=
  a.response_id = rid ∧
  (if truthyId p.project_question_id then
    a.project_question_id = p.project_question_id
  else
    a.custom_question_id = p.custom_question_id)

instance (p : AnswerPayload) (rid : Nat) (a : ResponseAnswer) :
    Decidable (pairMatch p rid a) := by
  unfold pairMatch; infer_instance

theorem unique_match {l : List ResponseAnswer} {pred : ResponseAnswer → Bool}
    (hc : l.countP pred ≤ 1) {a b : ResponseAnswer} (ha : a ∈ l) (hb : b ∈ l)
    (hpa : pred a = true) (hpb : pred b = true) : a = b := by
  by_contra hne
  have := two_le_countP ha hb hne hpa hpb
  omega

theorem countP_singleton_le_one (pred : ResponseAnswer → Bool)
    (x : ResponseAnswer) : List.countP pred [x] ≤ 1 := by
  rw [List.countP_cons, List.countP_nil]
  split <;> omega

theorem truthyId_none : truthyId none = false := rfl

theorem findExisting_left {p : AnswerPayload}
    (htr : truthyId p.project_question_id = true) (db : DB) (rid : Nat) :
    findExisting db rid p = db.answers.find? (fun a => a.response_id == rid &&
      a.project_question_id == p.project_question_id) := by
  simp [findExisting, htr]

theorem findExisting_right {p : AnswerPayload}
    (hntr : truthyId p.project_question_id = false)
    (htc : truthyId p.custom_question_id = true) (db : DB) (rid : Nat) :
    findExisting db rid p = db.answers.find? (fun a => a.response_id == rid &&
      a.custom_question_id == p.custom_question_id) := by
  simp [findExisting, hntr, htc]

theorem pairMatch_left {p : AnswerPayload} {rid : Nat} {a : ResponseAnswer}
    (htr : truthyId p.project_question_id = true) :
    pairMatch p rid a ↔ (a.response_id == rid &&
      a.project_question_id == p.project_question_id) = true := by
  simp [pairMatch, htr]

theorem pairMatch_right {p : AnswerPayload} {rid : Nat} {a : ResponseAnswer}
    (hntr : truthyId p.project_question_id = false) :
    pairMatch p rid a ↔ (a.response_id == rid &&
      a.custom_question_id == p.custom_question_id) = true := by
  simp [pairMatch, hntr]

theorem countP_overwrite_map (l : List ResponseAnswer) (p : AnswerPayload)
    (ex : ResponseAnswer) (pred : ResponseAnswer → Bool)
    (hpred : ∀ a, pred (overwriteAnswer p a) = pred a) :
    (l.map (fun a => if a.id == ex.id then overwriteAnswer p a else a)).countP pred
      = l.countP pred := by
  rw [List.countP_map]
  apply List.countP_congr
  intro a _
  simp only [Function.comp]
  by_cases h : (a.id == ex.id) = true
  · rw [if_pos h, hpred]
  · rw [if_neg h]

theorem submitCore_atMostOne {db : DB} {response : SurveyResponse}
    {p : AnswerPayload} {now : Nat} (hwf : WFPayload p)
    (hinv : AtMostOnePerPair db) :
    AtMostOnePerPair (submitCore db response p now) := by
  intro rid q hq
  simp only [submitCore]
  cases hE : findExisting db response.id p with
  | some ex =>
    simp only
    constructor
    · rw [countP_overwrite_map]
      · exact (hinv rid q hq).1
      · intro a; rfl
    · rw [countP_overwrite_map]
      · exact (hinv rid q hq).2
      · intro a; rfl
  | none =>
    simp only
    constructor
    · rw [List.countP_append]
      rcases hwf with ⟨htr, hcn⟩ | ⟨htc, hpn⟩
      · by_cases hm : response.id = rid ∧ p.project_question_id = some q
        · have hfind : db.answers.find? (fun a => a.response_id == response.id &&
              a.project_question_id == p.project_question_id) = none := by
            rw [findExisting_left htr] at hE
            exact hE
          have hall := List.find?_eq_none.mp hfind
          have hz : db.answers.countP (fun a => a.response_id == rid &&
              a.project_question_id == some q) = 0 := by
            rw [List.countP_eq_zero]
            intro a ha
            have h2 := hall a ha
            rw [hm.1, hm.2] at h2
            exact h2
          rw [hz]
          have h1 := countP_singleton_le_one (fun a => a.response_id == rid &&
            a.project_question_id == some q) (newAnswerRow db.nextAnsId response.id p)
          omega
        · have hz : List.countP (fun a => a.response_id == rid &&
              a.project_question_id == some q)
              [newAnswerRow db.nextAnsId response.id p] = 0 := by
            rw [List.countP_eq_zero]
            intro a ha
            rw [List.mem_singleton] at ha
            subst ha
            intro hcontra
            apply hm
            simpa [newAnswerRow, Bool.and_eq_true, beq_iff_eq] using hcontra
          rw [hz]
          have h1 := (hinv rid q hq).1
          omega
      · have hz : List.countP (fun a => a.response_id == rid &&
            a.project_question_id == some q)
            [newAnswerRow db.nextAnsId response.id p] = 0 := by
          rw [List.countP_eq_zero]
          intro a ha
          rw [List.mem_singleton] at ha
          subst ha
          intro hcontra
          simp [newAnswerRow, hpn, Bool.and_eq_true] at hcontra
        rw [hz]
        have h1 := (hinv rid q hq).1
        omega
    · rw [List.countP_append]
      rcases hwf with ⟨htr, hcn⟩ | ⟨htc, hpn⟩
      · have hz : List.countP (fun a => a.response_id == rid &&
            a.custom_question_id == some q)
            [newAnswerRow db.nextAnsId response.id p] = 0 := by
          rw [List.countP_eq_zero]
          intro a ha
          rw [List.mem_singleton] at ha
          subst ha
          intro hcontra
          simp [newAnswerRow, hcn, Bool.and_eq_true] at hcontra
        rw [hz]
        have h1 := (hinv rid q hq).2
        omega
      · by_cases hm : response.id = rid ∧ p.custom_question_id = some q
        · have hntr : truthyId p.project_question_id = false := by
            rw [hpn]; rfl
          have hfind : db.answers.find? (fun a => a.response_id == response.id &&
              a.custom_question_id == p.custom_question_id) = none := by
            rw [findExisting_right hntr htc] at hE
            exact hE
          have hall := List.find?_eq_none.mp hfind
          have hz : db.answers.countP (fun a => a.response_id == rid &&
              a.custom_question_id == some q) = 0 := by
            rw [List.countP_eq_zero]
            intro a ha
            have h2 := hall a ha
            rw [hm.1, hm.2] at h2
            exact h2
          rw [hz]
          have h1 := countP_singleton_le_one (fun a => a.response_id == rid &&
            a.custom_question_id == some q) (newAnswerRow db.nextAnsId response.id p)
          omega
        · have hz : List.countP (fun a => a.response_id == rid &&
              a.custom_question_id == some q)
              [newAnswerRow db.nextAnsId response.id p] = 0 := by
            rw [List.countP_eq_zero]
            intro a ha
            rw [List.mem_singleton] at ha
            subst ha
            intro hcontra
            apply hm
            simpa [newAnswerRow, Bool.and_eq_true, beq_iff_eq] using hcontra
          rw [hz]
          have h1 := (hinv rid q hq).2
          omega

/-- The natural-key lookup predicate `submit_answer` uses, as one Bool
predicate. -/
def lookupPred (p : AnswerPayload) (rid : Nat) : ResponseAnswer → Bool := fun a =>
  if truthyId p.project_question_id then
    a.response_id == rid && a.project_question_id == p.project_question_id
  else
    a.response_id == rid && a.custom_question_id == p.custom_question_id

theorem pairMatch_iff_lookupPred {p : AnswerPayload} {rid : Nat}
    {a : ResponseAnswer} : pairMatch p rid a ↔ lookupPred p rid a = true := by
  unfold pairMatch lookupPred
  by_cases h : truthyId p.project_question_id = true
  · simp [h]
  · rw [Bool.not_eq_true] at h
    simp [h]

theorem findExisting_eq_find_lookupPred {p : AnswerPayload} (hwf : WFPayload p)
    (db : DB) (rid : Nat) :
    findExisting db rid p = db.answers.find? (lookupPred p rid) := by
  rcases hwf with ⟨htr, _⟩ | ⟨htc, hpn⟩
  · rw [findExisting_left htr]
    congr 1
    funext a
    unfold lookupPred
    rw [if_pos htr]
  · have hntr : truthyId p.project_question_id = false := by rw [hpn]; rfl
    rw [findExisting_right hntr htc]
    congr 1
    funext a
    simp [lookupPred, hntr]

theorem countP_lookupPred_le_one {db : DB} {p : AnswerPayload}
    (hwf : WFPayload p) (hinv : AtMostOnePerPair db) (rid : Nat) :
    db.answers.countP (lookupPred p rid) ≤ 1 := by
  rcases hwf with ⟨htr, _⟩ | ⟨htc, hpn⟩
  · obtain ⟨n, hps, hn0⟩ := truthyId_iff.mp htr
    have h1 := (hinv rid n hn0).1
    have heq : db.answers.countP (lookupPred p rid) =
        db.answers.countP (fun a => a.response_id == rid &&
          a.project_question_id == some n) := by
      apply List.countP_congr
      intro a _
      unfold lookupPred
      rw [if_pos htr, hps]
    omega
  · obtain ⟨n, hps, hn0⟩ := truthyId_iff.mp htc
    have hntr : truthyId p.project_question_id = false := by rw [hpn]; rfl
    have h1 := (hinv rid n hn0).2
    have heq : db.answers.countP (lookupPred p rid) =
        db.answers.countP (fun a => a.response_id == rid &&
          a.custom_question_id == some n) := by
      apply List.countP_congr
      intro a _
      simp only [lookupPred, hntr, Bool.false_eq_true, if_false, hps]
    omega

theorem pairMatch_overwrite_iff {p : AnswerPayload} {rid : Nat}
    (ex b : ResponseAnswer) :
    pairMatch p rid (if b.id == ex.id then overwriteAnswer p b else b) ↔
      pairMatch p rid b := by
  by_cases h : (b.id == ex.id) = true
  · rw [if_pos h]
    exact Iff.rfl
  · rw [if_neg h]

theorem submitCore_answers_some {db : DB} {response : SurveyResponse}
    {p : AnswerPayload} {now : Nat} {ex : ResponseAnswer}
    (hE : findExisting db response.id p = some ex) :
    (submitCore db response p now).answers =
      db.answers.map (fun a => if a.id == ex.id then overwriteAnswer p a else a) := by
  simp only [submitCore, hE]

theorem submitCore_answers_none {db : DB} {response : SurveyResponse}
    {p : AnswerPayload} {now : Nat}
    (hE : findExisting db response.id p = none) :
    (submitCore db response p now).answers =
      db.answers ++ [newAnswerRow db.nextAnsId response.id p] := by
  simp only [submitCore, hE]

theorem submitCore_responses (db : DB) (response : SurveyResponse)
    (p : AnswerPayload) (now : Nat) :
    (submitCore db response p now).responses =
      db.responses.map (fun r =>
        if r.id == response.id then { r with last_activity := now } else r) := by
  simp only [submitCore]
  cases findExisting db response.id p <;> rfl

/-- What the claim asserts of one upsert against a response session: the
invariant is preserved, the (response, question) pair's unique row holds
the latest submitted values, an existing pair is overwritten in place
(same row count) while a fresh pair inserts exactly one row, and the
response's `last_activity` is bumped to the current time. -/
def UpsertSpec (db : DB) (response : SurveyResponse) (p : AnswerPayload)
    (now : Nat) : Prop :=
  AtMostOnePerPair (submitCore db response p now) ∧
  (∀ a ∈ (submitCore db response p now).answers, pairMatch p response.id a →
    a.answer_text = p.answer_text ∧ a.answer_code = p.answer_code ∧
    a.answer_numeric = p.answer_numeric ∧ a.answer_multi = p.answer_multi) ∧
  (∃ a ∈ (submitCore db response p now).answers, pairMatch p response.id a) ∧
  ((∃ a ∈ db.answers, pairMatch p response.id a) →
    (submitCore db response p now).answers.length = db.answers.length) ∧
  ((¬ ∃ a ∈ db.answers, pairMatch p response.id a) →
    (submitCore db response p now).answers.length = db.answers.length + 1) ∧
  (∀ r ∈ db.responses, r.id = response.id →
    ∃ r2 ∈ (submitCore db response p now).responses, r2.id = r.id ∧
      r2.last_activity = now)

theorem submitCore_upsertSpec {db : DB} {response : SurveyResponse}
    {p : AnswerPayload} {now : Nat} (hwf : WFPayload p)
    (hinv : AtMostOnePerPair db) : UpsertSpec db response p now := by
  have hEf := findExisting_eq_find_lookupPred hwf db response.id
  have hcount := countP_lookupPred_le_one hwf hinv response.id
  refine ⟨submitCore_atMostOne hwf hinv, ?_, ?_, ?_, ?_, ?_⟩
  · intro a ha hpm
    cases hE : findExisting db response.id p with
    | some ex =>
      rw [submitCore_answers_some hE] at ha
      obtain ⟨b, hb, rfl⟩ := List.mem_map.mp ha
      have hpmb := (pairMatch_overwrite_iff ex b).mp hpm
      have hbp := pairMatch_iff_lookupPred.mp hpmb
      rw [hEf] at hE
      have hexm := List.mem_of_find?_eq_some hE
      have hexp := List.find?_some hE
      have hbex : b = ex := unique_match hcount hb hexm hbp hexp
      subst hbex
      rw [if_pos (by rw [beq_iff_eq])]
      exact ⟨rfl, rfl, rfl, rfl⟩
    | none =>
      rw [submitCore_answers_none hE] at ha
      rcases List.mem_append.mp ha with hold | hnew
      · rw [hEf] at hE
        have hall := List.find?_eq_none.mp hE
        exact absurd (pairMatch_iff_lookupPred.mp hpm) (hall a hold)
      · rw [List.mem_singleton] at hnew
        subst hnew
        exact ⟨rfl, rfl, rfl, rfl⟩
  · cases hE : findExisting db response.id p with
    | some ex =>
      rw [hEf] at hE
      have hexm := List.mem_of_find?_eq_some hE
      have hexp := List.find?_some hE
      refine ⟨if ex.id == ex.id then overwriteAnswer p ex else ex, ?_, ?_⟩
      · rw [submitCore_answers_some (by rw [hEf]; exact hE)]
        exact List.mem_map.mpr ⟨ex, hexm, rfl⟩
      · rw [pairMatch_overwrite_iff ex ex]
        exact pairMatch_iff_lookupPred.mpr hexp
    | none =>
      refine ⟨newAnswerRow db.nextAnsId response.id p, ?_, ?_⟩
      · rw [submitCore_answers_none hE]
        exact List.mem_append.mpr (Or.inr (List.mem_singleton.mpr rfl))
      · refine ⟨rfl, ?_⟩
        split <;> rfl
  · intro hex
    cases hE : findExisting db response.id p with
    | some ex =>
      rw [submitCore_answers_some hE, List.length_map]
    | none =>
      obtain ⟨a, ha, hpm⟩ := hex
      rw [hEf] at hE
      have hall := List.find?_eq_none.mp hE
      exact absurd (pairMatch_iff_lookupPred.mp hpm) (hall a ha)
  · intro hnex
    cases hE : findExisting db response.id p with
    | some ex =>
      rw [hEf] at hE
      have hexm := List.mem_of_find?_eq_some hE
      have hexp := List.find?_some hE
      exact absurd ⟨ex, hexm, pairMatch_iff_lookupPred.mpr hexp⟩ hnex
    | none =>
      rw [submitCore_answers_none hE, List.length_append]
      rfl
  · intro r hr hrid
    rw [submitCore_responses]
    refine ⟨{ r with last_activity := now }, ?_, rfl, rfl⟩
    refine List.mem_map.mpr ⟨r, hr, ?_⟩
    rw [if_pos (by rw [beq_iff_eq]; exact hrid)]

theorem submit_answer_atMostOne {db : DB} {ac : String} {p : AnswerPayload}
    {now : Nat} {db2 : DB} (hwf : WFPayload p) (hinv : AtMostOnePerPair db)
    (hok : submit_answer db ac p now = .ok db2) : AtMostOnePerPair db2 := by
  obtain ⟨project, response, hp, hs, hr, rfl⟩ := submit_answer_ok_cases hok
  exact submitCore_atMostOne hwf hinv

theorem submitStep_atMostOne (db : DB) (req : SubmitReq)
    (hwf : WFPayload req.payload) (hinv : AtMostOnePerPair db) :
    AtMostOnePerPair (submitStep db req) := by
  unfold submitStep
  cases hok : submit_answer db req.access_code req.payload req.now with
  | ok db2 => exact submit_answer_atMostOne hwf hinv hok
  | error e => exact hinv

theorem submitMany_atMostOne (db : DB) (reqs : List SubmitReq)
    (hwf : ∀ req ∈ reqs, WFPayload req.payload) (hinv : AtMostOnePerPair db) :
    AtMostOnePerPair (submitMany db reqs) := by
  induction reqs generalizing db with
  | nil => exact hinv
  | cons r t ih =>
    show AtMostOnePerPair (List.foldl submitStep (submitStep db r) t)
    exact ih (submitStep db r)
      (fun req h => hwf req (List.mem_cons_of_mem r h))
      (submitStep_atMostOne db r (hwf r (List.mem_cons_self r t)) hinv)

theorem atMostOne_of_answers_nil {db : DB} (h : db.answers = []) :
    AtMostOnePerPair db := by
  intro rid q hq
  refine ⟨?_, ?_⟩ <;> rw [h] <;> simp

/-- C4: for every response session and well-formed submission (exactly one
meaningful question id), the upsert of `submit_answer` overwrites the
existing (response, question) row in place — same row count, latest text,
code, numeric and multi values — or inserts exactly one new row when the
pair is fresh, preserves the at-most-one-answer-per-pair invariant, and
bumps the response's `last_activity` to the current time; consequently any
sequence of submissions through the endpoint keeps at most one
ResponseAnswer per pair. -/
theorem C4_upsert_at_most_one (db : DB) (response : SurveyResponse)
    (p : AnswerPayload) (now : Nat) (hwf : WFPayload p)
    (hinv : AtMostOnePerPair db) :
    UpsertSpec db response p now ∧
    (∀ db0 : DB, ∀ reqs : List SubmitReq,
      (∀ req ∈ reqs, WFPayload req.payload) → AtMostOnePerPair db0 →
      AtMostOnePerPair (submitMany db0 reqs)) :=
  ⟨submitCore_upsertSpec hwf hinv,
   fun db0 reqs hw hi => submitMany_atMostOne db0 reqs hw hi⟩

/-- C4 witness: the upsert contract realized on a concrete active project,
session and payload. -/
theorem C4_witness :
    UpsertSpec fxActiveDB fxResp fxPay 5 ∧
    (∀ db0 : DB, ∀ reqs : List SubmitReq,
      (∀ req ∈ reqs, WFPayload req.payload) → AtMostOnePerPair db0 →
      AtMostOnePerPair (submitMany db0 reqs)) :=
  C4_upsert_at_most_one fxActiveDB fxResp fxPay 5 (by decide)
    (atMostOne_of_answers_nil rfl)

/-! ### Structural equations for bulkSync -/

theorem bulkSync_rows (db : DB) (pid : Nat) (raw : List JVal)
    (opts : Int → List OptPair) :
    (bulkSync db pid raw opts).1.projectQuestions =
      (db.projectQuestions.filter (fun pq =>
        decide (pq.id ∉ removedPkOf db pid raw))).map
        (fun pq => if pq.id ∈ updatedPkOf db pid raw then
          { pq with custom_options_json := optsOrNone (opts pq.master_question_id) }
        else pq) ++
      mkNewRows db.nextPQId (maxOrderOf db pid) pid opts (toAddOf db pid raw) := rfl

theorem bulkSync_result (db : DB) (pid : Nat) (raw : List JVal)
    (opts : Int → List OptPair) :
    (bulkSync db pid raw opts).2 =
      { added := toAddOf db pid raw, updated := toUpdateOf db pid raw,
        removed := toRemoveOf db pid raw,
        total := (sanitizeIds raw).length } := rfl

theorem bulkSync_answers (db : DB) (pid : Nat) (raw : List JVal)
    (opts : Int → List OptPair) :
    (bulkSync db pid raw opts).1.answers = db.answers := rfl

/-! ### C2: the response-answer deletion guard -/

/-- C2: the bulk sync never deletes a ProjectQuestion row referenced by at
least one ResponseAnswer — such a row survives the sync with its identity,
project, bank-question link and order intact (only its option-override
blob may change) — and the single-question delete endpoint refuses with a
400 error whenever any ResponseAnswer references the question. -/
theorem C2_deletion_guard (db : DB) (pid : Nat) (raw : List JVal)
    (opts : Int → List OptPair) (ac : String) (qid : Nat) :
    (∀ pq ∈ db.projectQuestions, hasAnswerFor db pq.id = true →
      ∃ pq2 ∈ (bulkSync db pid raw opts).1.projectQuestions,
        pq2.id = pq.id ∧ pq2.project_id = pq.project_id ∧
        pq2.master_question_id = pq.master_question_id ∧
        pq2.question_order = pq.question_order) ∧
    (∀ project pq,
      db.projects.find? (fun pr => pr.access_code == pyUpper ac) = some project →
      db.projectQuestions.find? (fun r => r.id == qid &&
        r.project_id == project.id) = some pq →
      hasAnswerFor db pq.id = true →
      delete_project_question_by_code db ac qid =
        .error (.badRequest "Cannot delete question with responses")) := by
  constructor
  · intro pq hpq hans
    have hnotrem : pq.id ∉ removedPkOf db pid raw := by
      intro hmem
      obtain ⟨mq, hmq, heq⟩ := List.mem_filterMap.mp hmem
      cases hL : lastWithMq (existingPqsOf db pid) mq with
      | none => rw [hL] at heq; simp only at heq; cases heq
      | some pq2 =>
        rw [hL] at heq
        simp only at heq
        by_cases hha : hasAnswerFor db pq2.id = true
        · rw [if_pos hha] at heq; cases heq
        · rw [if_neg hha] at heq
          have hid : pq2.id = pq.id := Option.some_inj.mp heq
          rw [hid] at hha
          exact hha hans
    refine ⟨if pq.id ∈ updatedPkOf db pid raw then
        { pq with custom_options_json := optsOrNone (opts pq.master_question_id) }
      else pq, ?_, ?_⟩
    · rw [bulkSync_rows]
      refine List.mem_append.mpr (Or.inl ?_)
      refine List.mem_map.mpr ⟨pq, ?_, rfl⟩
      exact List.mem_filter.mpr ⟨hpq, decide_eq_true hnotrem⟩
    · by_cases hu : pq.id ∈ updatedPkOf db pid raw
      · rw [if_pos hu]; exact ⟨rfl, rfl, rfl, rfl⟩
      · rw [if_neg hu]; exact ⟨rfl, rfl, rfl, rfl⟩
  · intro project pq hp hq hans
    unfold delete_project_question_by_code
    rw [hp]
    simp only
    rw [hq]
    simp only
    rw [if_pos hans]

/-! ### C5: sanitizing of the incoming id list -/

/-- C5: the bulk sync's id sanitization silently drops null, empty-string
and non-integer-coercible entries and deduplicates with set semantics —
membership in the sanitized set is exactly coercibility of some input
entry, and the result has no duplicates — and on a project with no prior
questions the input `[5, 5, "abc", null, 7]` yields exactly two
ProjectQuestions for bank ids 5 and 7 with orders 1 and 2 and the response
`added=[5,7]`. -/
theorem C5_sanitize_and_dedup :
    (∀ raw : List JVal, (sanitizeIds raw).Nodup) ∧
    (∀ (raw : List JVal) (x : Int),
      x ∈ sanitizeIds raw ↔ ∃ v ∈ raw, coerceId v = some x) ∧
    coerceId JVal.jnull = none ∧
    (∀ n : Int, coerceId (JVal.jint n) = some n) ∧
    coerceId (JVal.jstr "") = none ∧
    coerceId (JVal.jstr "undefined") = none ∧
    coerceId (JVal.jstr "abc") = none ∧
    sanitizeIds [JVal.jint 5, JVal.jint 5, JVal.jstr "abc", JVal.jnull,
      JVal.jint 7] = [5, 7] ∧
    ((bulkSync fxActiveDB 1 [JVal.jint 5, JVal.jint 5, JVal.jstr "abc",
        JVal.jnull, JVal.jint 7] (fun _ => [])).1.projectQuestions.map
      (fun pq => (pq.master_question_id, pq.question_order))) = [(5, 1), (7, 2)] ∧
    (bulkSync fxActiveDB 1 [JVal.jint 5, JVal.jint 5, JVal.jstr "abc",
      JVal.jnull, JVal.jint 7] (fun _ => [])).2.added = [5, 7] ∧
    (bulkSync fxActiveDB 1 [JVal.jint 5, JVal.jint 5, JVal.jstr "abc",
      JVal.jnull, JVal.jint 7] (fun _ => [])).2.total = 2 := by
  refine ⟨nodup_sanitizeIds, fun raw x => mem_sanitizeIds, rfl, fun n => rfl,
    by decide, by decide, by decide, by decide, by decide, by decide, by decide⟩

/-! ### C3: frequency table machinery -/

theorem bump_keys_mem (d : List (String × Nat)) (k k0 : String) :
    k0 ∈ (bump d k).map Prod.fst ↔ k0 ∈ d.map Prod.fst ∨ k0 = k := by
  induction d with
  | nil => simp [bump]
  | cons kv rest ih =>
    obtain ⟨k1, c⟩ := kv
    by_cases h : k1 = k
    · subst h
      simp [bump]
      tauto
    · simp only [bump, if_neg h, List.map_cons, List.mem_cons, ih]
      tauto

theorem bump_keys_nodup (d : List (String × Nat)) (k : String) :
    (d.map Prod.fst).Nodup → ((bump d k).map Prod.fst).Nodup := by
  induction d with
  | nil =>
    intro _
    simp [bump]
  | cons kv rest ih =>
    intro hnd
    obtain ⟨k1, c⟩ := kv
    rw [List.map_cons, List.nodup_cons] at hnd
    by_cases h : k1 = k
    · rw [← h]
      have hb : bump ((k1, c) :: rest) k1 = (k1, c + 1) :: rest := by
        simp [bump]
      rw [hb, List.map_cons, List.nodup_cons]
      exact ⟨hnd.1, hnd.2⟩
    · have hb : bump ((k1, c) :: rest) k = (k1, c) :: bump rest k := by
        simp [bump, h]
      rw [hb, List.map_cons, List.nodup_cons]
      refine ⟨?_, ih hnd.2⟩
      rw [bump_keys_mem]
      rintro (hm | rfl)
      · exact hnd.1 hm
      · exact h rfl

theorem count_append_singleton (l : List String) (k k0 : String) :
    (l ++ [k]).count k0 = l.count k0 + (if k0 = k then 1 else 0) := by
  rw [List.count_append]
  congr 1
  rw [List.count_cons, List.count_nil]
  by_cases h : k0 = k
  · rw [if_pos h, if_pos (beq_iff_eq.mpr h.symm)]
  · rw [if_neg h, if_neg (fun he => h (beq_iff_eq.mp he).symm)]

theorem bump_count (d : List (String × Nat)) (k : String) :
    ∀ l : List String,
      (d.map Prod.fst).Nodup →
      (k ∈ d.map Prod.fst ∨ l.count k = 0) →
      (∀ kc ∈ d, l.count kc.1 = kc.2) →
      ∀ kc ∈ bump d k, (l ++ [k]).count kc.1 = kc.2 := by
  induction d with
  | nil =>
    intro l _ hk _ kc hkc
    simp only [bump, List.mem_singleton] at hkc
    subst hkc
    rw [count_append_singleton, if_pos rfl]
    rcases hk with hm | hz
    · cases hm
    · rw [hz]
  | cons kv rest ih =>
    intro l hnd hk hcnt kc hkc
    obtain ⟨k1, c⟩ := kv
    rw [List.map_cons, List.nodup_cons] at hnd
    by_cases h : k1 = k
    · rw [← h] at hkc ⊢
      have hb : bump ((k1, c) :: rest) k1 = (k1, c + 1) :: rest := by
        simp [bump]
      rw [hb] at hkc
      rcases List.mem_cons.mp hkc with rfl | hrest
      · rw [count_append_singleton, if_pos rfl]
        have hc := hcnt (k1, c) (List.mem_cons_self _ _)
        simp only at hc ⊢
        omega
      · have hk1 : kc.1 ≠ k1 := by
          intro he
          exact hnd.1 (he ▸ List.mem_map.mpr ⟨kc, hrest, rfl⟩)
        rw [count_append_singleton, if_neg hk1, Nat.add_zero]
        exact hcnt kc (List.mem_cons_of_mem _ hrest)
    · have hb : bump ((k1, c) :: rest) k = (k1, c) :: bump rest k := by
        simp [bump, h]
      rw [hb] at hkc
      rcases List.mem_cons.mp hkc with rfl | hrest
      · rw [count_append_singleton, if_neg (fun he => h he), Nat.add_zero]
        exact hcnt (k1, c) (List.mem_cons_self _ _)
      · have hk2 : k ∈ rest.map Prod.fst ∨ l.count k = 0 := by
          rcases hk with hm | hz
          · rw [List.map_cons, List.mem_cons] at hm
            rcases hm with he | hm2
            · exact absurd he.symm h
            · exact Or.inl hm2
          · exact Or.inr hz
        exact ih l hnd.2 hk2
          (fun kc2 hkc2 => hcnt kc2 (List.mem_cons_of_mem _ hkc2)) kc hrest

theorem countKeys_go (keys : List String) (d : List (String × Nat))
    (l : List String)
    (hnd : (d.map Prod.fst).Nodup)
    (hmem : ∀ k, k ∈ d.map Prod.fst ↔ k ∈ l)
    (hcnt : ∀ kc ∈ d, l.count kc.1 = kc.2) :
    ((keys.foldl bump d).map Prod.fst).Nodup ∧
    (∀ k, k ∈ (keys.foldl bump d).map Prod.fst ↔ k ∈ l ++ keys) ∧
    (∀ kc ∈ keys.foldl bump d, (l ++ keys).count kc.1 = kc.2) := by
  induction keys generalizing d l with
  | nil =>
    rw [List.foldl_nil]
    refine ⟨hnd, ?_, ?_⟩
    · intro k
      rw [List.append_nil]
      exact hmem k
    · intro kc hkc
      rw [List.append_nil]
      exact hcnt kc hkc
  | cons k rest ih =>
    rw [List.foldl_cons]
    have h1 := bump_keys_nodup d k hnd
    have h2 : ∀ k0, k0 ∈ (bump d k).map Prod.fst ↔ k0 ∈ l ++ [k] := by
      intro k0
      rw [bump_keys_mem, hmem k0, List.mem_append, List.mem_singleton]
    have h3 : ∀ kc ∈ bump d k, (l ++ [k]).count kc.1 = kc.2 := by
      refine bump_count d k l hnd ?_ hcnt
      by_cases hkl : k ∈ l
      · exact Or.inl ((hmem k).mpr hkl)
      · exact Or.inr (List.count_eq_zero.mpr hkl)
    have step := ih (bump d k) (l ++ [k]) h1 h2 h3
    rw [List.append_assoc, List.singleton_append] at step
    exact step

theorem countKeys_spec (keys : List String) :
    ((countKeys keys).map Prod.fst).Nodup ∧
    (∀ k, k ∈ (countKeys keys).map Prod.fst ↔ k ∈ keys) ∧
    (∀ kc ∈ countKeys keys, keys.count kc.1 = kc.2) := by
  have go := countKeys_go keys [] [] (by simp) (by simp) (by simp)
  simpa [countKeys] using go

/-- The qualification condition of `calculate_question_results`: the
answer's owning response belongs to the project and is complete, and the
answer references the requested question. -/
def Qual (db : DB) (projectId : Nat) (pq_id cq_id : Option Nat)
    (a : ResponseAnswer) : Prop :=
  (∃ r ∈ db.responses, r.id = a.response_id ∧ r.project_id = projectId ∧
    r.is_complete = true) ∧
  (if truthyId pq_id then a.project_question_id = pq_id
   else a.custom_question_id = cq_id)

instance (db : DB) (projectId : Nat) (pq_id cq_id : Option Nat)
    (a : ResponseAnswer) : Decidable (Qual db projectId pq_id cq_id a) := by
  unfold Qual
  infer_instance

theorem completeFor_iff {db : DB} {pid : Nat} {a : ResponseAnswer} :
    completeFor db pid a = true ↔
      ∃ r ∈ db.responses, r.id = a.response_id ∧ r.project_id = pid ∧
        r.is_complete = true := by
  unfold completeFor
  rw [List.any_eq_true]
  simp [Bool.and_eq_true, and_assoc]

theorem aggregation_facts (db : DB) (pred : ResponseAnswer → Bool)
    (Q : ResponseAnswer → Prop) [inst : DecidablePred Q]
    (hiff : ∀ a, pred a = true ↔ Q a) :
    (db.answers.filter pred).length =
      db.answers.countP (fun a => decide (Q a)) ∧
    (∀ k c pct, (k, c, pct) ∈ (countKeys ((db.answers.filter pred).map keyOf)).map
        (fun kc => (kc.1, kc.2, if 0 < (db.answers.filter pred).length
          then pyRound1 ((kc.2 : ℚ) / ((db.answers.filter pred).length : ℚ) * 100)
          else 0)) →
      c = db.answers.countP (fun a => decide (Q a ∧ keyOf a = k)) ∧
      pct = (if 0 < (db.answers.filter pred).length
        then pyRound1 ((c : ℚ) / ((db.answers.filter pred).length : ℚ) * 100)
        else 0)) ∧
    (∀ k, (∃ a ∈ db.answers, Q a ∧ keyOf a = k) ↔
      ∃ c pct, (k, c, pct) ∈ (countKeys ((db.answers.filter pred).map keyOf)).map
        (fun kc => (kc.1, kc.2, if 0 < (db.answers.filter pred).length
          then pyRound1 ((kc.2 : ℚ) / ((db.answers.filter pred).length : ℚ) * 100)
          else 0))) ∧
    ((db.answers.filter pred).length = 0 →
      (countKeys ((db.answers.filter pred).map keyOf)).map
        (fun kc => (kc.1, kc.2, if 0 < (db.answers.filter pred).length
          then pyRound1 ((kc.2 : ℚ) / ((db.answers.filter pred).length : ℚ) * 100)
          else 0)) = []) := by
  obtain ⟨hnd, hmemk, hcnt⟩ :=
    countKeys_spec ((db.answers.filter pred).map keyOf)
  have hcount_eq : ∀ k : String,
      ((db.answers.filter pred).map keyOf).count k =
        db.answers.countP (fun a => decide (Q a ∧ keyOf a = k)) := by
    intro k
    rw [List.count_eq_countP, List.countP_map, List.countP_filter]
    apply List.countP_congr
    intro a _
    simp only [Function.comp, Bool.and_eq_true, beq_iff_eq, decide_eq_true_eq]
    rw [hiff a]
    tauto
  refine ⟨?_, ?_, ?_, ?_⟩
  · rw [← List.countP_eq_length_filter]
    apply List.countP_congr
    intro a _
    rw [hiff a, decide_eq_true_eq]
  · intro k c pct hmem
    obtain ⟨kc, hkc, heq⟩ := List.mem_map.mp hmem
    have h1 : kc.1 = k := congrArg (fun x => x.1) heq
    have h2 : kc.2 = c := congrArg (fun x => x.2.1) heq
    have h3 := congrArg (fun x => x.2.2) heq
    simp only at h1 h2 h3
    constructor
    · rw [← h2, ← hcnt kc hkc, h1, hcount_eq]
    · rw [← h3, h2]
  · intro k
    constructor
    · rintro ⟨a, ha, hQ, hk⟩
      have hamem : a ∈ db.answers.filter pred :=
        List.mem_filter.mpr ⟨ha, (hiff a).mpr hQ⟩
      have hkm : k ∈ (db.answers.filter pred).map keyOf :=
        List.mem_map.mpr ⟨a, hamem, hk⟩
      obtain ⟨kc, hkc, hfst⟩ := List.mem_map.mp ((hmemk k).mpr hkm)
      refine ⟨kc.2, if 0 < (db.answers.filter pred).length
        then pyRound1 ((kc.2 : ℚ) / ((db.answers.filter pred).length : ℚ) * 100)
        else 0, ?_⟩
      refine List.mem_map.mpr ⟨kc, hkc, ?_⟩
      rw [hfst]
    · rintro ⟨c, pct, hmem⟩
      obtain ⟨kc, hkc, heq⟩ := List.mem_map.mp hmem
      have h1 : kc.1 = k := congrArg (fun x => x.1) heq
      have hkm : k ∈ (db.answers.filter pred).map keyOf :=
        (hmemk k).mp (h1 ▸ List.mem_map.mpr ⟨kc, hkc, rfl⟩)
      obtain ⟨a, hamem, hk⟩ := List.mem_map.mp hkm
      have h2 := List.mem_filter.mp hamem
      exact ⟨a, h2.1, (hiff a).mp h2.2, hk⟩
  · intro h0
    have hnil : db.answers.filter pred = [] := List.length_eq_zero.mp h0
    rw [hnil]
    rfl

/-- A completed response of project 1. -/
def fxAggResp (i : Nat) : SurveyResponse :=
  { id := i, project_id := 1, response_code := "R", is_complete := true,
    started_at := 0, completed_at := some 1, last_activity := 1 }

/-- A text answer by response `i` to project question 1. -/
def fxAggAns (i : Nat) (t : String) : ResponseAnswer :=
  { id := i, response_id := i, project_question_id := some 1,
    custom_question_id := none, answer_text := some t, answer_code := none,
    answer_numeric := none, answer_multi := none }

/-- Ten completed responses answering project question 1: six `Yes`, four
`No`. -/
def fxAggDB : DB :=
  { fxActiveDB with
    responses := (List.range 10).map (fun i => fxAggResp (i + 1)),
    answers := ((List.range 6).map (fun i => fxAggAns (i + 1) "Yes")) ++
      ((List.range 4).map (fun i => fxAggAns (i + 7) "No")) }

/-- A question record for the aggregation example. -/
def fxQ : QInfo := { question_text := "q", question_type := "yes_no" }

theorem roundHalfEven_intCast (n : ℤ) : roundHalfEven ((n : ℚ)) = n := by
  simp only [roundHalfEven, Int.floor_intCast]
  norm_num

theorem pyRound1_of_intCast {q : ℚ} {n : ℤ} (h : q * 10 = (n : ℚ)) :
    pyRound1 q = (n : ℚ) / 10 := by
  unfold pyRound1
  rw [h, roundHalfEven_intCast]

/-- C3: the aggregation counts exactly the answers whose owning
SurveyResponse is complete for the project and that reference the given
question, keys the frequency table by answer text with the sentinel
`No Response` for empty or absent text, emits for each key its count and
`round(count / total * 100, 1)` (0 when total is 0, without raising), and
carries the question's text and type; in particular 10 completed answers
split 6 `Yes` / 4 `No` yield counts 6 and 4 with percentages 60.0 and
40.0, and a question with no completed answers yields total 0 and an
empty distribution. -/
theorem C3_aggregation (db : DB) (pid : Nat) (pq_id cq_id : Option Nat)
    (q : QInfo) :
    (calculate_question_results db pid pq_id cq_id q).question_text =
      q.question_text ∧
    (calculate_question_results db pid pq_id cq_id q).question_type =
      q.question_type ∧
    ((calculate_question_results db pid pq_id cq_id q).total_responses =
      db.answers.countP (fun a => decide (Qual db pid pq_id cq_id a)) ∧
    (∀ k c pct,
      (k, c, pct) ∈ (calculate_question_results db pid pq_id cq_id q).distribution →
      c = db.answers.countP
        (fun a => decide (Qual db pid pq_id cq_id a ∧ keyOf a = k)) ∧
      pct = (if 0 < (calculate_question_results db pid pq_id cq_id q).total_responses
        then pyRound1 ((c : ℚ) /
          (((calculate_question_results db pid pq_id cq_id q).total_responses : ℚ)) * 100)
        else 0)) ∧
    (∀ k, (∃ a ∈ db.answers, Qual db pid pq_id cq_id a ∧ keyOf a = k) ↔
      ∃ c pct,
        (k, c, pct) ∈ (calculate_question_results db pid pq_id cq_id q).distribution) ∧
    ((calculate_question_results db pid pq_id cq_id q).total_responses = 0 →
      (calculate_question_results db pid pq_id cq_id q).distribution = [])) ∧
    (calculate_question_results fxAggDB 1 (some 1) none fxQ).total_responses = 10 ∧
    ((calculate_question_results fxAggDB 1 (some 1) none fxQ).distribution.map
      (fun e => (e.1, e.2.1))) = [("Yes", 6), ("No", 4)] ∧
    (∀ k c pct, (k, c, pct) ∈
        (calculate_question_results fxAggDB 1 (some 1) none fxQ).distribution →
      (k = "Yes" → c = 6 ∧ pct = 60) ∧ (k = "No" → c = 4 ∧ pct = 40)) ∧
    (calculate_question_results fxAggDB 1 (some 99) none fxQ).total_responses = 0 ∧
    (calculate_question_results fxAggDB 1 (some 99) none fxQ).distribution = [] := by
  have hiffC : ∀ a, (completeFor fxAggDB 1 a &&
      a.project_question_id == some 1) = true ↔
      Qual fxAggDB 1 (some 1) none a := by
    intro a
    unfold Qual
    rw [if_pos (show truthyId (some 1) = true from rfl), Bool.and_eq_true,
      completeFor_iff, beq_iff_eq]
  have hconc := aggregation_facts fxAggDB
    (fun a => completeFor fxAggDB 1 a && a.project_question_id == some 1)
    (fun a => Qual fxAggDB 1 (some 1) none a) hiffC
  have hredux : (calculate_question_results fxAggDB 1 (some 1) none fxQ).distribution =
      (countKeys ((fxAggDB.answers.filter (fun a => completeFor fxAggDB 1 a &&
          a.project_question_id == some 1)).map keyOf)).map
        (fun kc => (kc.1, kc.2,
          if 0 < (fxAggDB.answers.filter (fun a => completeFor fxAggDB 1 a &&
              a.project_question_id == some 1)).length
          then pyRound1 ((kc.2 : ℚ) /
            ((fxAggDB.answers.filter (fun a => completeFor fxAggDB 1 a &&
              a.project_question_id == some 1)).length : ℚ) * 100)
          else 0)) := rfl
  have hlen : (fxAggDB.answers.filter (fun a => completeFor fxAggDB 1 a &&
      a.project_question_id == some 1)).length = 10 := by decide
  refine ⟨rfl, rfl, ?_, by decide, by decide, ?_, by decide, by decide⟩
  · by_cases hb : truthyId pq_id = true
    · have hiffA : ∀ a, (completeFor db pid a &&
          a.project_question_id == pq_id) = true ↔ Qual db pid pq_id cq_id a := by
        intro a
        unfold Qual
        rw [if_pos hb, Bool.and_eq_true, completeFor_iff, beq_iff_eq]
      have hf := aggregation_facts db
        (fun a => completeFor db pid a && a.project_question_id == pq_id)
        (fun a => Qual db pid pq_id cq_id a) hiffA
      simp only [calculate_question_results, hb, if_true]
      exact hf
    · have hb2 : truthyId pq_id = false := by
        rwa [Bool.not_eq_true] at hb
      have hiffB : ∀ a, (completeFor db pid a &&
          a.custom_question_id == cq_id) = true ↔ Qual db pid pq_id cq_id a := by
        intro a
        unfold Qual
        rw [if_neg hb, Bool.and_eq_true, completeFor_iff, beq_iff_eq]
      have hf := aggregation_facts db
        (fun a => completeFor db pid a && a.custom_question_id == cq_id)
        (fun a => Qual db pid pq_id cq_id a) hiffB
      simp only [calculate_question_results, hb2, Bool.false_eq_true, if_false]
      exact hf
  · intro k c pct hmem
    rw [hredux] at hmem
    have hcf := hconc.2.1 k c pct hmem
    constructor
    · intro hk
      subst hk
      have hc6 : fxAggDB.answers.countP (fun a =>
          decide (Qual fxAggDB 1 (some 1) none a ∧ keyOf a = "Yes")) = 6 := by
        decide
      have hceq : c = 6 := by rw [hcf.1, hc6]
      refine ⟨hceq, ?_⟩
      rw [hcf.2, hlen, hceq, if_pos (by norm_num)]
      rw [@pyRound1_of_intCast _ 600 (by push_cast; norm_num)]
      norm_num
    · intro hk
      subst hk
      have hc4 : fxAggDB.answers.countP (fun a =>
          decide (Qual fxAggDB 1 (some 1) none a ∧ keyOf a = "No")) = 4 := by
        decide
      have hceq : c = 4 := by rw [hcf.1, hc4]
      refine ⟨hceq, ?_⟩
      rw [hcf.2, hlen, hceq, if_pos (by norm_num)]
      rw [@pyRound1_of_intCast _ 400 (by push_cast; norm_num)]
      norm_num

/-! ### C1: the bulk sync is a set reconciliation -/

theorem mem_existingPqsOf {db : DB} {pid : Nat} {pq : ProjectQuestion} :
    pq ∈ existingPqsOf db pid ↔ pq ∈ db.projectQuestions ∧ pq.project_id = pid := by
  unfold existingPqsOf
  rw [List.mem_filter, beq_iff_eq]

theorem mem_existingIdsOf {db : DB} {pid : Nat} {i : Int} :
    i ∈ existingIdsOf db pid ↔
      i ∈ (existingPqsOf db pid).map (fun pq => pq.master_question_id) := by
  unfold existingIdsOf
  rw [mem_foldl_insertSet]
  simp

theorem mem_removedPkOf {db : DB} {pid : Nat} {raw : List JVal}
    (hmq : ((existingPqsOf db pid).map (fun pq => pq.master_question_id)).Nodup)
    (x : Nat) :
    x ∈ removedPkOf db pid raw ↔
      ∃ pq ∈ existingPqsOf db pid, pq.id = x ∧
        pq.master_question_id ∉ sanitizeIds raw ∧
        hasAnswerFor db pq.id = false := by
  unfold removedPkOf
  rw [List.mem_filterMap]
  constructor
  · rintro ⟨mq, hmq2, heq⟩
    cases hL : lastWithMq (existingPqsOf db pid) mq with
    | none => rw [hL] at heq; simp only at heq; cases heq
    | some pq2 =>
      rw [hL] at heq
      simp only at heq
      by_cases hha : hasAnswerFor db pq2.id = true
      · rw [if_pos hha] at heq; cases heq
      · rw [if_neg hha] at heq
        obtain ⟨hpm, hpmq⟩ := lastWithMq_mem hL
        have hnd : mq ∉ sanitizeIds raw := by
          have h2 := List.mem_filter.mp hmq2
          exact of_decide_eq_true h2.2
        have hfalse : hasAnswerFor db pq2.id = false := by
          rwa [Bool.not_eq_true] at hha
        exact ⟨pq2, hpm, Option.some_inj.mp heq, by rw [hpmq]; exact hnd, hfalse⟩
  · rintro ⟨pq, hpm, rfl, hnotd, hans⟩
    refine ⟨pq.master_question_id, ?_, ?_⟩
    · unfold toRemoveOf
      refine List.mem_filter.mpr ⟨?_, decide_eq_true hnotd⟩
      rw [mem_existingIdsOf]
      exact List.mem_map.mpr ⟨pq, hpm, rfl⟩
    · rw [lastWithMq_self hmq hpm]
      simp only
      rw [if_neg (by rw [hans]; simp)]

theorem mem_updatedPkOf {db : DB} {pid : Nat} {raw : List JVal} {x : Nat}
    (hx : x ∈ updatedPkOf db pid raw) :
    ∃ pq ∈ existingPqsOf db pid, pq.id = x := by
  unfold updatedPkOf at hx
  obtain ⟨mq, hmq2, heq⟩ := List.mem_filterMap.mp hx
  cases hL : lastWithMq (existingPqsOf db pid) mq with
  | none => rw [hL] at heq; cases heq
  | some pq2 =>
    rw [hL] at heq
    exact ⟨pq2, (lastWithMq_mem hL).1, Option.some_inj.mp (by simpa using heq)⟩

/-- What the claim asserts of one bulk sync call, under unique row ids,
unique per-project bank ids and fresh autoincrement counter: a project row
survives iff its bank id is still desired or it has answers; rows of other
projects are untouched; surviving desired rows keep id, bank link and
order; the newly created rows are exactly the desired-minus-existing ids,
with consecutive order numbers continuing above every pre-existing order
of the project; and the returned added/updated/removed sets and total are
the set differences and the desired count. -/
def BulkSyncSpec (db : DB) (pid : Nat) (raw : List JVal)
    (opts : Int → List OptPair) : Prop :=
  (∀ pq ∈ db.projectQuestions, pq.project_id = pid →
    (pq.id ∈ (bulkSync db pid raw opts).1.projectQuestions.map (fun r => r.id) ↔
      (pq.master_question_id ∈ sanitizeIds raw ∨ hasAnswerFor db pq.id = true))) ∧
  (∀ pq ∈ db.projectQuestions, pq.project_id ≠ pid →
    pq ∈ (bulkSync db pid raw opts).1.projectQuestions) ∧
  (∀ pq ∈ db.projectQuestions, pq.project_id = pid →
    pq.master_question_id ∈ sanitizeIds raw →
    ∃ pq2 ∈ (bulkSync db pid raw opts).1.projectQuestions, pq2.id = pq.id ∧
      pq2.project_id = pid ∧ pq2.master_question_id = pq.master_question_id ∧
      pq2.question_order = pq.question_order) ∧
  (((bulkSync db pid raw opts).1.projectQuestions.filter (fun pq =>
      decide (db.nextPQId ≤ pq.id))).map (fun pq => pq.master_question_id) =
    toAddOf db pid raw) ∧
  (((bulkSync db pid raw opts).1.projectQuestions.filter (fun pq =>
      decide (db.nextPQId ≤ pq.id))).map (fun pq => pq.question_order) =
    consecutiveFrom (maxOrderOf db pid) (toAddOf db pid raw).length) ∧
  (∀ pq2 ∈ (bulkSync db pid raw opts).1.projectQuestions,
    db.nextPQId ≤ pq2.id →
    pq2.project_id = pid ∧ maxOrderOf db pid < pq2.question_order ∧
    (∀ pq ∈ db.projectQuestions, pq.project_id = pid →
      pq.question_order < pq2.question_order)) ∧
  (∀ i, i ∈ (bulkSync db pid raw opts).2.added ↔
    i ∈ sanitizeIds raw ∧
    i ∉ (existingPqsOf db pid).map (fun pq => pq.master_question_id)) ∧
  (∀ i, i ∈ (bulkSync db pid raw opts).2.updated ↔
    i ∈ sanitizeIds raw ∧
    i ∈ (existingPqsOf db pid).map (fun pq => pq.master_question_id)) ∧
  (∀ i, i ∈ (bulkSync db pid raw opts).2.removed ↔
    i ∈ (existingPqsOf db pid).map (fun pq => pq.master_question_id) ∧
    i ∉ sanitizeIds raw) ∧
  (bulkSync db pid raw opts).2.total = (sanitizeIds raw).length

/-- C1: the bulk sync is a true set reconciliation. Under the invariants
that row ids are unique, that a bank question appears at most once per
project, and that stored ids are below the autoincrement counter, the sync
removes exactly the answer-free rows whose bank id left the desired set,
adds exactly desired-minus-existing with consecutive next order numbers
above every pre-existing order, keeps the ids and orders of rows whose
bank id stays desired, leaves other projects untouched, and returns the
added, updated and removed id sets plus the desired-set size. -/
theorem C1_bulk_sync_reconciliation (db : DB) (pid : Nat) (raw : List JVal)
    (opts : Int → List OptPair)
    (hmq : ((existingPqsOf db pid).map (fun pq => pq.master_question_id)).Nodup)
    (hid : (db.projectQuestions.map (fun pq => pq.id)).Nodup)
    (hfresh : ∀ pq ∈ db.projectQuestions, pq.id < db.nextPQId) :
    BulkSyncSpec db pid raw opts := by
  have huniq : ∀ {x y : ProjectQuestion}, x ∈ db.projectQuestions →
      y ∈ db.projectQuestions → x.id = y.id → x = y := by
    intro x y hx hy hxy
    exact List.inj_on_of_nodup_map hid hx hy hxy
  have hids_eq :
      ((db.projectQuestions.filter (fun pq =>
        decide (pq.id ∉ removedPkOf db pid raw))).map (fun pq =>
          if pq.id ∈ updatedPkOf db pid raw then
            { pq with custom_options_json := optsOrNone (opts pq.master_question_id) }
          else pq)).map (fun r => r.id) =
      (db.projectQuestions.filter (fun pq =>
        decide (pq.id ∉ removedPkOf db pid raw))).map (fun r => r.id) := by
    rw [List.map_map]
    apply List.map_congr_left
    intro a _
    by_cases h : a.id ∈ updatedPkOf db pid raw
    · simp only [Function.comp, if_pos h]
    · simp only [Function.comp, if_neg h]
  have hnew_fields := mkNewRows_fields db.nextPQId (maxOrderOf db pid) pid opts
    (toAddOf db pid raw)
  have hnotrem : ∀ pq ∈ db.projectQuestions, pq.project_id = pid →
      (pq.master_question_id ∈ sanitizeIds raw ∨ hasAnswerFor db pq.id = true) →
      pq.id ∉ removedPkOf db pid raw := by
    intro pq hpq hproj hkeep hmem
    obtain ⟨pq2, hpq2, hpq2id, hpq2nd, hpq2ans⟩ := (mem_removedPkOf hmq _).mp hmem
    have : pq2 = pq := huniq (mem_existingPqsOf.mp hpq2).1 hpq hpq2id
    subst this
    rcases hkeep with hd | ha
    · exact hpq2nd hd
    · rw [hpq2ans] at ha
      cases ha
  refine ⟨?_, ?_, ?_, ?_, ?_, ?_, ?_, ?_, ?_, rfl⟩
  · intro pq hpq hproj
    constructor
    · intro hmem
      rw [bulkSync_rows, List.map_append, List.mem_append] at hmem
      rcases hmem with h2 | h2
      · rw [hids_eq] at h2
        obtain ⟨row, hrow, hrowid⟩ := List.mem_map.mp h2
        have hrf := List.mem_filter.mp hrow
        have : row = pq := huniq hrf.1 hpq hrowid
        subst this
        have hnr : row.id ∉ removedPkOf db pid raw := of_decide_eq_true hrf.2
        by_contra hcon
        push_neg at hcon
        obtain ⟨hnd, hna⟩ := hcon
        exact hnr ((mem_removedPkOf hmq _).mpr ⟨row,
          mem_existingPqsOf.mpr ⟨hrf.1, hproj⟩, rfl, hnd,
          Bool.eq_false_iff.mpr hna⟩)
      · obtain ⟨row, hrow, hrowid⟩ := List.mem_map.mp h2
        have := (hnew_fields row hrow).2.1
        have hlt := hfresh pq hpq
        omega
    · intro hkeep
      rw [bulkSync_rows, List.map_append, List.mem_append]
      left
      rw [hids_eq]
      exact List.mem_map.mpr ⟨pq, List.mem_filter.mpr ⟨hpq,
        decide_eq_true (hnotrem pq hpq hproj hkeep)⟩, rfl⟩
  · intro pq hpq hproj
    have hnr : pq.id ∉ removedPkOf db pid raw := by
      intro hmem
      obtain ⟨pq2, hpq2, hpq2id, _, _⟩ := (mem_removedPkOf hmq _).mp hmem
      have : pq2 = pq := huniq (mem_existingPqsOf.mp hpq2).1 hpq hpq2id
      subst this
      exact hproj (mem_existingPqsOf.mp hpq2).2
    have hnu : pq.id ∉ updatedPkOf db pid raw := by
      intro hmem
      obtain ⟨pq2, hpq2, hpq2id⟩ := mem_updatedPkOf hmem
      have : pq2 = pq := huniq (mem_existingPqsOf.mp hpq2).1 hpq hpq2id
      subst this
      exact hproj (mem_existingPqsOf.mp hpq2).2
    rw [bulkSync_rows, List.mem_append]
    left
    refine List.mem_map.mpr ⟨pq, List.mem_filter.mpr ⟨hpq, decide_eq_true hnr⟩, ?_⟩
    rw [if_neg hnu]
  · intro pq hpq hproj hd
    have hnr : pq.id ∉ removedPkOf db pid raw :=
      hnotrem pq hpq hproj (Or.inl hd)
    refine ⟨if pq.id ∈ updatedPkOf db pid raw then
        { pq with custom_options_json := optsOrNone (opts pq.master_question_id) }
      else pq, ?_, ?_⟩
    · rw [bulkSync_rows, List.mem_append]
      left
      exact List.mem_map.mpr ⟨pq, List.mem_filter.mpr ⟨hpq, decide_eq_true hnr⟩, rfl⟩
    · by_cases hu : pq.id ∈ updatedPkOf db pid raw
      · rw [if_pos hu]
        exact ⟨rfl, hproj, rfl, rfl⟩
      · rw [if_neg hu]
        exact ⟨rfl, hproj, rfl, rfl⟩
  · rw [bulkSync_rows, List.filter_append]
    have h1 : ((db.projectQuestions.filter (fun pq =>
        decide (pq.id ∉ removedPkOf db pid raw))).map (fun pq =>
          if pq.id ∈ updatedPkOf db pid raw then
            { pq with custom_options_json := optsOrNone (opts pq.master_question_id) }
          else pq)).filter (fun pq => decide (db.nextPQId ≤ pq.id)) = [] := by
      rw [List.filter_eq_nil_iff]
      intro r hr
      obtain ⟨row, hrow, hrowe⟩ := List.mem_map.mp hr
      have hrid : r.id = row.id := by
        rw [← hrowe]
        by_cases h : row.id ∈ updatedPkOf db pid raw
        · rw [if_pos h]
        · rw [if_neg h]
      have hlt := hfresh row (List.mem_filter.mp hrow).1
      simp only [decide_eq_true_eq]
      omega
    have h2 : (mkNewRows db.nextPQId (maxOrderOf db pid) pid opts
        (toAddOf db pid raw)).filter (fun pq => decide (db.nextPQId ≤ pq.id)) =
        mkNewRows db.nextPQId (maxOrderOf db pid) pid opts (toAddOf db pid raw) := by
      rw [List.filter_eq_self]
      intro r hr
      exact decide_eq_true (hnew_fields r hr).2.1
    rw [h1, h2, List.nil_append, mkNewRows_map_mq]
  · rw [bulkSync_rows, List.filter_append]
    have h1 : ((db.projectQuestions.filter (fun pq =>
        decide (pq.id ∉ removedPkOf db pid raw))).map (fun pq =>
          if pq.id ∈ updatedPkOf db pid raw then
            { pq with custom_options_json := optsOrNone (opts pq.master_question_id) }
          else pq)).filter (fun pq => decide (db.nextPQId ≤ pq.id)) = [] := by
      rw [List.filter_eq_nil_iff]
      intro r hr
      obtain ⟨row, hrow, hrowe⟩ := List.mem_map.mp hr
      have hrid : r.id = row.id := by
        rw [← hrowe]
        by_cases h : row.id ∈ updatedPkOf db pid raw
        · rw [if_pos h]
        · rw [if_neg h]
      have hlt := hfresh row (List.mem_filter.mp hrow).1
      simp only [decide_eq_true_eq]
      omega
    have h2 : (mkNewRows db.nextPQId (maxOrderOf db pid) pid opts
        (toAddOf db pid raw)).filter (fun pq => decide (db.nextPQId ≤ pq.id)) =
        mkNewRows db.nextPQId (maxOrderOf db pid) pid opts (toAddOf db pid raw) := by
      rw [List.filter_eq_self]
      intro r hr
      exact decide_eq_true (hnew_fields r hr).2.1
    rw [h1, h2, List.nil_append, mkNewRows_map_order]
  · intro pq2 hpq2 hge
    rw [bulkSync_rows, List.mem_append] at hpq2
    rcases hpq2 with h2 | h2
    · obtain ⟨row, hrow, hrowe⟩ := List.mem_map.mp h2
      have hrid : pq2.id = row.id := by
        rw [← hrowe]
        by_cases h : row.id ∈ updatedPkOf db pid raw
        · rw [if_pos h]
        · rw [if_neg h]
      have hlt := hfresh row (List.mem_filter.mp hrow).1
      omega
    · obtain ⟨hproj, _, horder⟩ := hnew_fields pq2 h2
      refine ⟨hproj, horder, ?_⟩
      intro pq hpq hpqproj
      have hle : pq.question_order ≤ maxOrderOf db pid := by
        apply le_maxDefault0
        exact List.mem_map.mpr ⟨pq, mem_existingPqsOf.mpr ⟨hpq, hpqproj⟩, rfl⟩
      omega
  · intro i
    rw [bulkSync_result]
    simp only
    unfold toAddOf
    rw [List.mem_filter]
    constructor
    · rintro ⟨h1, h2⟩
      refine ⟨h1, ?_⟩
      have := of_decide_eq_true h2
      rwa [mem_existingIdsOf] at this
    · rintro ⟨h1, h2⟩
      refine ⟨h1, decide_eq_true ?_⟩
      rwa [mem_existingIdsOf]
  · intro i
    rw [bulkSync_result]
    simp only
    unfold toUpdateOf
    rw [List.mem_filter]
    constructor
    · rintro ⟨h1, h2⟩
      refine ⟨h1, ?_⟩
      have := of_decide_eq_true h2
      rwa [mem_existingIdsOf] at this
    · rintro ⟨h1, h2⟩
      refine ⟨h1, decide_eq_true ?_⟩
      rwa [mem_existingIdsOf]
  · intro i
    rw [bulkSync_result]
    simp only
    unfold toRemoveOf
    rw [List.mem_filter]
    constructor
    · rintro ⟨h1, h2⟩
      rw [mem_existingIdsOf] at h1
      exact ⟨h1, of_decide_eq_true h2⟩
    · rintro ⟨h1, h2⟩
      exact ⟨mem_existingIdsOf.mpr h1, decide_eq_true h2⟩

/-- A project holding bank questions {1,2,3} at orders 1,2,3. -/
def fxSyncDB : DB :=
  { fxActiveDB with
    projectQuestions := [
      { id := 1, project_id := 1, master_question_id := 1, question_order := 1,
        custom_text := none, custom_options_json := none, is_breakout := false },
      { id := 2, project_id := 1, master_question_id := 2, question_order := 2,
        custom_text := none, custom_options_json := none, is_breakout := false },
      { id := 3, project_id := 1, master_question_id := 3, question_order := 3,
        custom_text := none, custom_options_json := none, is_breakout := false }],
    nextPQId := 4 }

/-- C1 witness: the reconciliation contract realized on the spec's own
example — existing selection {1,2,3} synced to desired selection {2,3,4}. -/
theorem C1_witness :
    BulkSyncSpec fxSyncDB 1 [JVal.jint 2, JVal.jint 3, JVal.jint 4]
      (fun _ => []) :=
  C1_bulk_sync_reconciliation fxSyncDB 1 [JVal.jint 2, JVal.jint 3, JVal.jint 4]
    (fun _ => []) (by decide) (by decide) (by decide)

/-! ### C6: order-number assignment across the two question kinds -/

theorem bulkSync_new_orders (db : DB) (pid : Nat) (raw : List JVal)
    (opts : Int → List OptPair)
    (hfresh : ∀ pq ∈ db.projectQuestions, pq.id < db.nextPQId) :
    (((bulkSync db pid raw opts).1.projectQuestions.filter (fun pq =>
      decide (db.nextPQId ≤ pq.id))).map (fun pq => pq.question_order)) =
    consecutiveFrom (maxOrderOf db pid) (toAddOf db pid raw).length := by
  rw [bulkSync_rows, List.filter_append]
  have h1 : ((db.projectQuestions.filter (fun pq =>
      decide (pq.id ∉ removedPkOf db pid raw))).map (fun pq =>
        if pq.id ∈ updatedPkOf db pid raw then
          { pq with custom_options_json := optsOrNone (opts pq.master_question_id) }
        else pq)).filter (fun pq => decide (db.nextPQId ≤ pq.id)) = [] := by
    rw [List.filter_eq_nil_iff]
    intro r hr
    obtain ⟨row, hrow, hrowe⟩ := List.mem_map.mp hr
    have hrid : r.id = row.id := by
      rw [← hrowe]
      by_cases h : row.id ∈ updatedPkOf db pid raw
      · rw [if_pos h]
      · rw [if_neg h]
    have hlt := hfresh row (List.mem_filter.mp hrow).1
    simp only [decide_eq_true_eq]
    omega
  have h2 : (mkNewRows db.nextPQId (maxOrderOf db pid) pid opts
      (toAddOf db pid raw)).filter (fun pq => decide (db.nextPQId ≤ pq.id)) =
      mkNewRows db.nextPQId (maxOrderOf db pid) pid opts (toAddOf db pid raw) := by
    rw [List.filter_eq_self]
    intro r hr
    exact decide_eq_true
      ((mkNewRows_fields db.nextPQId (maxOrderOf db pid) pid opts
        (toAddOf db pid raw) r hr).2.1)
  rw [h1, h2, List.nil_append, mkNewRows_map_order]

/-- The store after adding one custom question to the empty active
project: the custom question holds order 1. -/
def fxCollideDB : DB :=
  { fxActiveDB with
    customQuestions := [
      { id := 1, project_id := 1, question_text := "Extra",
        question_order := 1, question_type := "yes_no",
        likert_low_label := none, likert_high_label := none,
        is_breakout := false }],
    nextCQId := 2 }

/-- C6 counterexample: adding a custom question to an empty project gives
it order 1 (max CustomQuestion order 0, plus 1, ignoring ProjectQuestions);
a following bulk sync adds a ProjectQuestion also at order 1 (max
ProjectQuestion order 0, plus 1, ignoring CustomQuestions). The two
question kinds do not share one order-counter scope, and a ProjectQuestion
and a CustomQuestion of the same project end up holding the same order
number — the claimed rule max(PQ order, CQ order) + 1 would have produced
order 2. -/
theorem C6_counterexample :
    add_custom_question_by_code fxActiveDB "AB" "Extra" "yes_no" none none [] =
      .ok fxCollideDB ∧
    (fxCollideDB.customQuestions.map (fun c => c.question_order)) = [1] ∧
    ((bulkSync fxCollideDB 1 [JVal.jint 10] (fun _ => [])).1.projectQuestions.map
      (fun pq => pq.question_order)) = [1] ∧
    (bulkSync fxCollideDB 1 [JVal.jint 10] (fun _ => [])).1.customQuestions =
      fxCollideDB.customQuestions := by
  refine ⟨by decide, by decide, by decide, by decide⟩

/-- C6 (amended): the three add operations assign orders from different
scopes. The bulk sync gives new ProjectQuestions consecutive orders
continuing from the maximum existing ProjectQuestion order of the project
(0 when none), ignoring CustomQuestions entirely (which it never touches);
`add_custom_question_by_code` assigns max existing CustomQuestion order
plus 1, ignoring ProjectQuestions; only the admin individual add
`add_project_question` (without an explicit order, with a bank id)
assigns max(max PQ order, max CQ order) + 1. Consequently a
ProjectQuestion and a CustomQuestion of the same project can hold the
same order number. -/
theorem C6_order_assignment (db : DB) (pid : Nat) (raw : List JVal)
    (opts : Int → List OptPair) (ac qt qty : String) (ll lh : Option String)
    (os : List OptPair) (d : AddQuestionPayload)
    (hfresh : ∀ pq ∈ db.projectQuestions, pq.id < db.nextPQId) :
    ((((bulkSync db pid raw opts).1.projectQuestions.filter (fun pq =>
        decide (db.nextPQId ≤ pq.id))).map (fun pq => pq.question_order)) =
      consecutiveFrom (maxOrderOf db pid) (toAddOf db pid raw).length) ∧
    ((bulkSync db pid raw opts).1.customQuestions = db.customQuestions) ∧
    (∀ project db2,
      db.projects.find? (fun p => p.access_code == pyUpper ac) = some project →
      add_custom_question_by_code db ac qt qty ll lh os = .ok db2 →
      ∃ cq, db2.customQuestions = db.customQuestions ++ [cq] ∧
        cq.project_id = project.id ∧
        cq.question_order = maxDefault0 ((db.customQuestions.filter (fun c =>
          c.project_id == project.id)).map (fun c => c.question_order)) + 1 ∧
        db2.projectQuestions = db.projectQuestions) ∧
    (∀ p0 mq db2, db.projects.find? (fun p => p.id == pid) = some p0 →
      d.master_question_id = some mq → d.question_order = none →
      add_project_question db pid d = .ok db2 →
      ∃ pq, db2.projectQuestions = db.projectQuestions ++ [pq] ∧
        pq.master_question_id = mq ∧
        pq.question_order = max
          (maxDefault0 ((db.projectQuestions.filter (fun r =>
            r.project_id == pid)).map (fun r => r.question_order)))
          (maxDefault0 ((db.customQuestions.filter (fun c =>
            c.project_id == pid)).map (fun c => c.question_order))) + 1) := by
  refine ⟨bulkSync_new_orders db pid raw opts hfresh, rfl, ?_, ?_⟩
  · intro project db2 hp hok
    unfold add_custom_question_by_code at hok
    rw [hp] at hok
    simp only at hok
    cases hok
    refine ⟨_, rfl, rfl, rfl, rfl⟩
  · intro p0 mq db2 hp hmq hqo hok
    unfold add_project_question at hok
    rw [hp] at hok
    simp only at hok
    rw [hmq] at hok
    simp only at hok
    cases hok
    refine ⟨_, rfl, rfl, ?_⟩
    simp only [hqo, Option.getD]

/-- An admin add-question payload carrying a bank id and no explicit
order. -/
def fxAddPayload : AddQuestionPayload :=
  { master_question_id := some 10, question_order := none, custom_text := none,
    is_breakout := none, question_text := "", question_type := "yes_no",
    likert_low_label := none, likert_high_label := none, response_options := [] }

/-- C6 witness: the amended order-assignment rules realized on the store
holding one custom question at order 1. -/
theorem C6_witness :
    ((((bulkSync fxCollideDB 1 [JVal.jint 10] (fun _ => [])).1.projectQuestions.filter
        (fun pq => decide (fxCollideDB.nextPQId ≤ pq.id))).map
        (fun pq => pq.question_order)) =
      consecutiveFrom (maxOrderOf fxCollideDB 1)
        (toAddOf fxCollideDB 1 [JVal.jint 10]).length) ∧
    ((bulkSync fxCollideDB 1 [JVal.jint 10] (fun _ => [])).1.customQuestions =
      fxCollideDB.customQuestions) ∧
    (∀ project db2,
      fxCollideDB.projects.find? (fun p =>
        p.access_code == pyUpper "AB") = some project →
      add_custom_question_by_code fxCollideDB "AB" "Extra2" "yes_no" none none [] =
        .ok db2 →
      ∃ cq, db2.customQuestions = fxCollideDB.customQuestions ++ [cq] ∧
        cq.project_id = project.id ∧
        cq.question_order = maxDefault0 ((fxCollideDB.customQuestions.filter (fun c =>
          c.project_id == project.id)).map (fun c => c.question_order)) + 1 ∧
        db2.projectQuestions = fxCollideDB.projectQuestions) ∧
    (∀ p0 mq db2, fxCollideDB.projects.find? (fun p => p.id == 1) = some p0 →
      fxAddPayload.master_question_id = some mq →
      fxAddPayload.question_order = none →
      add_project_question fxCollideDB 1 fxAddPayload = .ok db2 →
      ∃ pq, db2.projectQuestions = fxCollideDB.projectQuestions ++ [pq] ∧
        pq.master_question_id = mq ∧
        pq.question_order = max
          (maxDefault0 ((fxCollideDB.projectQuestions.filter (fun r =>
            r.project_id == 1)).map (fun r => r.question_order)))
          (maxDefault0 ((fxCollideDB.customQuestions.filter (fun c =>
            c.project_id == 1)).map (fun c => c.question_order))) + 1) :=
  C6_order_assignment fxCollideDB 1 [JVal.jint 10] (fun _ => []) "AB" "Extra2"
    "yes_no" none none [] fxAddPayload (by decide)

/-! ### C10: CSV export -/

theorem insertByKey_perm {α : Type} (key : α → Int) (x : α) (l : List α) :
    (insertByKey key x l).Perm (x :: l) := by
  induction l with
  | nil => exact List.Perm.refl _
  | cons y ys ih =>
    unfold insertByKey
    split
    · exact (List.Perm.cons y ih).trans (List.Perm.swap x y ys)
    · exact List.Perm.refl _

theorem sortByKey_perm {α : Type} (key : α → Int) (l : List α) :
    (sortByKey key l).Perm l := by
  induction l with
  | nil => exact List.Perm.refl _
  | cons x xs ih =>
    unfold sortByKey
    exact (insertByKey_perm key x (sortByKey key xs)).trans (List.Perm.cons x ih)

theorem insertByKey_sorted {α : Type} (key : α → Int) (x : α) {l : List α}
    (hl : List.Pairwise (fun a b => key a ≤ key b) l) :
    List.Pairwise (fun a b => key a ≤ key b) (insertByKey key x l) := by
  induction l with
  | nil => simp [insertByKey]
  | cons y ys ih =>
    rw [List.pairwise_cons] at hl
    unfold insertByKey
    split
    · rename_i hlt
      rw [List.pairwise_cons]
      refine ⟨?_, ih hl.2⟩
      intro b hb
      have hmem := (insertByKey_perm key x ys).mem_iff.mp hb
      rcases List.mem_cons.mp hmem with rfl | hys
      · exact le_of_lt hlt
      · exact hl.1 b hys
    · rename_i hge
      rw [List.pairwise_cons]
      constructor
      · intro b hb
        rcases List.mem_cons.mp hb with rfl | hys
        · exact le_of_not_lt hge
        · exact le_trans (le_of_not_lt hge) (hl.1 b hys)
      · exact List.pairwise_cons.mpr hl

theorem sortByKey_sorted {α : Type} (key : α → Int) (l : List α) :
    List.Pairwise (fun a b => key a ≤ key b) (sortByKey key l) := by
  induction l with
  | nil => simp [sortByKey]
  | cons x xs ih =>
    unfold sortByKey
    exact insertByKey_sorted key x ih

/-- A project with one bank-linked question at order 2 and one custom
question at order 1. -/
def fxExportDB : DB :=
  { fxActiveDB with
    projectQuestions := [
      { id := 1, project_id := 1, master_question_id := 7, question_order := 2,
        custom_text := none, custom_options_json := none, is_breakout := false }],
    customQuestions := [
      { id := 1, project_id := 1, question_text := "X",
        question_order := 1, question_type := "yes_no",
        likert_low_label := none, likert_high_label := none,
        is_breakout := false }],
    nextPQId := 2, nextCQId := 2 }

/-- C10 counterexample: with a ProjectQuestion at order 2 and a
CustomQuestion at order 1, the export's header lists `Q2` before `Q1` —
all ProjectQuestion columns precede all CustomQuestion columns — whereas
the claimed single merged ordering space would put the order-1 custom
question's column first. -/
theorem C10_counterexample :
    export_csv fxExportDB 1 = [["Response ID", "Completed", "Q2", "Q1"]] ∧
    ["Response ID", "Completed", "Q2", "Q1"] ≠
      ["Response ID", "Completed", "Q1", "Q2"] := by
  refine ⟨by decide, by decide⟩

theorem get?_cons2 {α : Type} (a b : α) (t : List α) (n : Nat) :
    (a :: b :: t).get? (2 + n) = t.get? n := by
  rw [Nat.add_comm]
  rfl


/-- The project's ProjectQuestions sorted by order, as `export_csv` builds
them. -/
def pqsOf (db : DB) (pid : Nat) : List ProjectQuestion :=
  sortByKey (fun pq => pq.question_order)
    (db.projectQuestions.filter (fun pq => pq.project_id == pid))

/-- The project's CustomQuestions sorted by order, as `export_csv` builds
them. -/
def cqsOf (db : DB) (pid : Nat) : List CustomQuestion :=
  sortByKey (fun c => c.question_order)
    (db.customQuestions.filter (fun c => c.project_id == pid))

/-- The completed responses of the project, as `export_csv` filters them. -/
def completedOf (db : DB) (pid : Nat) : List SurveyResponse :=
  db.responses.filter (fun r => r.project_id == pid && r.is_complete)

/-- The cell `export_csv` emits for response `r` under a ProjectQuestion
column. -/
def pqCell (db : DB) (r : SurveyResponse) (pq : ProjectQuestion) : String :=
  match db.answers.find? (fun a => a.response_id == r.id &&
      a.project_question_id == some pq.id) with
  | some a => (a.answer_text).getD ""
  | none => ""

/-- The cell `export_csv` emits for response `r` under a CustomQuestion
column. -/
def cqCell (db : DB) (r : SurveyResponse) (c : CustomQuestion) : String :=
  match db.answers.find? (fun a => a.response_id == r.id &&
      a.custom_question_id == some c.id) with
  | some a => (a.answer_text).getD ""
  | none => ""

/-- The data row `export_csv` emits for one completed response. -/
def rowOf (db : DB) (pid : Nat) (r : SurveyResponse) : List String :=
  [r.response_code.take 8, if r.is_complete then "Yes" else "No"] ++
  (pqsOf db pid).map (pqCell db r) ++
  (cqsOf db pid).map (cqCell db r)

theorem rowOf_cons (db : DB) (pid : Nat) (r : SurveyResponse) :
    rowOf db pid r = (r.response_code.take 8) ::
      (if r.is_complete then "Yes" else "No") ::
      ((pqsOf db pid).map (pqCell db r) ++ (cqsOf db pid).map (cqCell db r)) :=
  rfl

theorem rowOf_get_pq (db : DB) (pid : Nat) (r : SurveyResponse) (j : Nat)
    (hj : j < (pqsOf db pid).length) :
    (rowOf db pid r).get? (2 + j) =
      ((pqsOf db pid).get? j).map (pqCell db r) := by
  rw [rowOf_cons, get?_cons2, List.get?_append (by simpa using hj),
    List.get?_map]

theorem rowOf_get_cq (db : DB) (pid : Nat) (r : SurveyResponse) (j : Nat) :
    (rowOf db pid r).get? (2 + ((pqsOf db pid).length + j)) =
      ((cqsOf db pid).get? j).map (cqCell db r) := by
  have hlen : ((pqsOf db pid).map (pqCell db r)).length = (pqsOf db pid).length :=
    by simp
  rw [rowOf_cons, get?_cons2,
    List.get?_append_right (by rw [hlen]; exact Nat.le_add_right _ _),
    hlen, Nat.add_sub_cancel_left, List.get?_map]

theorem export_csv_tail (db : DB) (pid : Nat) :
    (export_csv db pid).tail = (completedOf db pid).map (rowOf db pid) := rfl

/-- `AtMostOnePerPair` holds of any store with at most one answer row. -/
theorem atMostOnePerPair_of_le_one (db : DB) (h : db.answers.length ≤ 1) :
    AtMostOnePerPair db := by
  intro rid q _
  exact ⟨le_trans (List.countP_le_length _) h,
    le_trans (List.countP_le_length _) h⟩

/-- What the amended claim asserts of the export: a header of
`Response ID`, `Completed`, the ProjectQuestion columns in ascending order
and then the CustomQuestion columns in ascending order (two blocks, not
one merged ordering); one data row per completed response of the project,
in order, each starting with the 8-character prefix of the opaque response
code and `Yes`, with one cell per question column holding the matching
answer's text (the empty string when there is no matching answer or the
text is absent). -/
def ExportSpec (db : DB) (pid : Nat) : Prop :=
  (export_csv db pid).head? = some (["Response ID", "Completed"] ++
    (pqsOf db pid).map (fun pq => "Q" ++ toString pq.question_order) ++
    (cqsOf db pid).map (fun c => "Q" ++ toString c.question_order)) ∧
  List.Pairwise (fun a b => a.question_order ≤ b.question_order)
    (pqsOf db pid) ∧
  (pqsOf db pid).Perm
    (db.projectQuestions.filter (fun pq => pq.project_id == pid)) ∧
  List.Pairwise (fun a b => a.question_order ≤ b.question_order)
    (cqsOf db pid) ∧
  (cqsOf db pid).Perm
    (db.customQuestions.filter (fun c => c.project_id == pid)) ∧
  (export_csv db pid).tail.length = (completedOf db pid).length ∧
  (∀ i r, (completedOf db pid).get? i = some r →
    ∃ row, (export_csv db pid).tail.get? i = some row ∧
      row.head? = some (r.response_code.take 8) ∧
      row.get? 1 = some "Yes" ∧
      row.length = 2 + (pqsOf db pid).length + (cqsOf db pid).length ∧
      (∀ j pq2, (pqsOf db pid).get? j = some pq2 →
        ((¬ ∃ a ∈ db.answers, a.response_id = r.id ∧
            a.project_question_id = some pq2.id) →
          row.get? (2 + j) = some "") ∧
        (∀ a ∈ db.answers, a.response_id = r.id →
          a.project_question_id = some pq2.id →
          row.get? (2 + j) = some ((a.answer_text).getD ""))) ∧
      (∀ j cq2, (cqsOf db pid).get? j = some cq2 →
        ((¬ ∃ a ∈ db.answers, a.response_id = r.id ∧
            a.custom_question_id = some cq2.id) →
          row.get? (2 + ((pqsOf db pid).length + j)) = some "") ∧
        (∀ a ∈ db.answers, a.response_id = r.id →
          a.custom_question_id = some cq2.id →
          row.get? (2 + ((pqsOf db pid).length + j)) =
            some ((a.answer_text).getD ""))))

/-- C10 (amended): `export_csv` emits a header of `Response ID`,
`Completed`, then the project's ProjectQuestion columns in ascending
question order followed by its CustomQuestion columns in ascending
question order (two separate blocks rather than one merged ordering), and
one data row per completed response — response-code prefix of length 8,
`Yes`, and per question column the matching answer's text or the empty
string — provided each (response, question) pair has at most one answer
row and question ids are nonzero. -/
theorem C10_export_blocks (db : DB) (pid : Nat)
    (hinv : AtMostOnePerPair db)
    (hnz : ∀ pq ∈ db.projectQuestions, pq.id ≠ 0)
    (hnzc : ∀ c ∈ db.customQuestions, c.id ≠ 0) :
    ExportSpec db pid := by
  refine ⟨rfl, sortByKey_sorted _ _, sortByKey_perm _ _,
    sortByKey_sorted _ _, sortByKey_perm _ _, ?_, ?_⟩
  · rw [export_csv_tail, List.length_map]
  · intro i r hget
    have hmem : r ∈ completedOf db pid := List.get?_mem hget
    have hcomp : r.is_complete = true := by
      have h := (List.mem_filter.mp hmem).2
      simp only [Bool.and_eq_true] at h
      exact h.2
    refine ⟨rowOf db pid r, ?_, rfl, ?_, ?_, ?_, ?_⟩
    · rw [export_csv_tail, List.get?_map, hget]
      rfl
    · rw [rowOf_cons, hcomp]
      rfl
    · rw [rowOf_cons]
      simp only [List.length_cons, List.length_append, List.length_map]
      omega
    · intro j pq2 hj
      have hjlt : j < (pqsOf db pid).length := by
        obtain ⟨h, _⟩ := List.get?_eq_some.mp hj
        exact h
      have hcell : (rowOf db pid r).get? (2 + j) = some (pqCell db r pq2) := by
        rw [rowOf_get_pq db pid r j hjlt, hj]
        rfl
      have hq2mem : pq2 ∈ db.projectQuestions := by
        have h1 : pq2 ∈ pqsOf db pid := List.get?_mem hj
        have h2 := (sortByKey_perm (fun pq : ProjectQuestion => pq.question_order) _).mem_iff.mp h1
        exact (List.mem_filter.mp h2).1
      have hq2nz : pq2.id ≠ 0 := hnz pq2 hq2mem
      constructor
      · intro hno
        rw [hcell]
        have hfn : db.answers.find? (fun a => a.response_id == r.id &&
            a.project_question_id == some pq2.id) = none := by
          rw [List.find?_eq_none]
          intro x hx hpx
          simp only [Bool.and_eq_true, beq_iff_eq] at hpx
          exact hno ⟨x, hx, hpx.1, hpx.2⟩
        unfold pqCell
        rw [hfn]
      · intro a ha hrid hqid
        rw [hcell]
        unfold pqCell
        cases hf : db.answers.find? (fun a => a.response_id == r.id &&
            a.project_question_id == some pq2.id) with
        | none =>
          exfalso
          apply List.find?_eq_none.mp hf a ha
          simp only [Bool.and_eq_true, beq_iff_eq]
          exact ⟨hrid, hqid⟩
        | some b =>
          have hbmem : b ∈ db.answers := List.mem_of_find?_eq_some hf
          have hbpred := List.find?_some hf
          have hcnt := (hinv r.id pq2.id hq2nz).1
          have hapred : (fun a => a.response_id == r.id &&
              a.project_question_id == some pq2.id) a = true := by
            simp only [Bool.and_eq_true, beq_iff_eq]
            exact ⟨hrid, hqid⟩
          have hab : a = b := unique_match hcnt ha hbmem hapred hbpred
          rw [hab]
    · intro j cq2 hj
      have hcell : (rowOf db pid r).get? (2 + ((pqsOf db pid).length + j)) =
          some (cqCell db r cq2) := by
        rw [rowOf_get_cq db pid r j, hj]
        rfl
      have hq2mem : cq2 ∈ db.customQuestions := by
        have h1 : cq2 ∈ cqsOf db pid := List.get?_mem hj
        have h2 := (sortByKey_perm (fun c : CustomQuestion => c.question_order) _).mem_iff.mp h1
        exact (List.mem_filter.mp h2).1
      have hq2nz : cq2.id ≠ 0 := hnzc cq2 hq2mem
      constructor
      · intro hno
        rw [hcell]
        have hfn : db.answers.find? (fun a => a.response_id == r.id &&
            a.custom_question_id == some cq2.id) = none := by
          rw [List.find?_eq_none]
          intro x hx hpx
          simp only [Bool.and_eq_true, beq_iff_eq] at hpx
          exact hno ⟨x, hx, hpx.1, hpx.2⟩
        unfold cqCell
        rw [hfn]
      · intro a ha hrid hqid
        rw [hcell]
        unfold cqCell
        cases hf : db.answers.find? (fun a => a.response_id == r.id &&
            a.custom_question_id == some cq2.id) with
        | none =>
          exfalso
          apply List.find?_eq_none.mp hf a ha
          simp only [Bool.and_eq_true, beq_iff_eq]
          exact ⟨hrid, hqid⟩
        | some b =>
          have hbmem : b ∈ db.answers := List.mem_of_find?_eq_some hf
          have hbpred := List.find?_some hf
          have hcnt := (hinv r.id cq2.id hq2nz).2
          have hapred : (fun a => a.response_id == r.id &&
              a.custom_question_id == some cq2.id) a = true := by
            simp only [Bool.and_eq_true, beq_iff_eq]
            exact ⟨hrid, hqid⟩
          have hab : a = b := unique_match hcnt ha hbmem hapred hbpred
          rw [hab]

/-- The export fixture with one completed response and one recorded
answer. -/
def fxC10DB : DB :=
  { fxExportDB with
    responses := [{ id := 1, project_id := 1, response_code := "abcdefghij",
                    is_complete := true, started_at := 0,
                    completed_at := some 9, last_activity := 9 }],
    answers := [{ id := 1, response_id := 1, project_question_id := some 1,
                  custom_question_id := none, answer_text := some "Hi",
                  answer_code := none, answer_numeric := none,
                  answer_multi := none }],
    nextRespId := 2, nextAnsId := 2 }

theorem C10_witness :
    AtMostOnePerPair fxC10DB ∧
    (∀ pq ∈ fxC10DB.projectQuestions, pq.id ≠ 0) ∧
    (∀ c ∈ fxC10DB.customQuestions, c.id ≠ 0) ∧
    ExportSpec fxC10DB 1 :=
  ⟨atMostOnePerPair_of_le_one _ (by decide), by decide, by decide,
    C10_export_blocks fxC10DB 1 (atMostOnePerPair_of_le_one _ (by decide))
      (by decide) (by decide)⟩
